import Mathlib

/-!
# Verification of the NFTX order reconciler (`src/orderbook/orders/nftx/index.ts`)

Shallow embedding of the `save` batch entry point and its helpers.  External
collaborators (pricing oracle, pool-detail provider, royalty registry,
token-set registry, source registry, pool inventory) are modelled as fields of
an `Env` record; a failing call is an `Option` returning `none`.  The relational
order store is a list of rows; the `redb` existence probe, the immediate `idb`
updates and the final conflict-ignoring bulk insert are explicit list
operations.  The `keccak256` hash is a parameter of the environment, so that
collision-freedom can be assumed as an explicit hypothesis where a claim needs
it.  Prices and basis points are natural numbers (uint256 amounts); the
`BigNumber` subtraction producing `normalized_value` is carried out in `ℤ`.
The bounded-concurrency batch (`pLimit(20)` + `Promise.all`) is modelled as the
sequential left-to-right execution of the per-event handler; the
`currency_price` / `currency_value` / `currency_normalized_value` columns,
which the source always sets to the same values as `price` / `value` /
`normalized_value`, are not duplicated as separate fields.
-/

namespace Nftx

/-- An entry of the default royalty schedule returned by the royalty
registry (`royalties.getRoyaltiesByTokenSet`). -/
structure Royalty where
  recipient : String
  bps : Nat
  deriving DecidableEq

/-- The per-direction marketplace fee (basis points) carried by one quote. -/
structure BpsPair where
  sell : Nat
  buy : Nat
  deriving DecidableEq

/-- The raw (pre-slippage) prices carried by one quote; a side is absent when
the pool cannot trade in that direction at this depth. -/
structure RawPair where
  sell : Option Nat
  buy : Option Nat
  deriving DecidableEq

/-- One quote from `Sdk.Nftx.Helpers.getPoolPrice`: slippage-adjusted `sell` /
`buy` prices, fee basis points per direction, settlement currency, and the raw
prices. -/
structure PoolPrice where
  sell : Option Nat
  buy : Option Nat
  currency : String
  bps : BpsPair
  raw : RawPair
  deriving DecidableEq

/-- Pool details from `nftx.getNftPoolDetails`. -/
structure Pool where
  address : String
  nft : String
  vaultId : Nat
  deriving DecidableEq

/-- The `orderParams` of one triggering event. -/
structure OrderParams where
  pool : String
  txTimestamp : Nat
  txHash : String
  deriving DecidableEq

/-- One `feeBreakdown` entry. -/
structure FeeEntry where
  kind : String
  recipient : String
  bps : Nat
  deriving DecidableEq

/-- One `missingRoyalties` entry. -/
structure MissingRoyalty where
  bps : Nat
  amount : Nat
  recipient : String
  deriving DecidableEq

/-- Order side. -/
inductive Side where
  | buy
  | sell
  deriving DecidableEq

/-- The `triggerKind` tag of a `SaveResult`. -/
inductive TriggerKind where
  | newOrder
  | reprice
  deriving DecidableEq

/-- One element of the result list returned by `save`. -/
structure SaveResult (Id : Type) where
  id : Id
  txHash : String
  status : String
  triggerKind : Option TriggerKind
  deriving DecidableEq

/-- One row of the `orders` table, with the columns this module reads or
writes.  `expiration = none` renders the SQL `'Infinity'`; `valid_from` is the
lower bound of `valid_between` (its upper bound is always `'Infinity'` here).
`raw_prices` and `specific_ids` are the `extra.prices` and `specificIds` of the
encoded `raw_data` payload. -/
structure DbOrder (Id : Type) where
  id : Id
  kind : String
  side : String
  fillability_status : String
  approval_status : String
  token_set_id : String
  token_set_schema : String
  maker : String
  taker : String
  price : Nat
  value : Nat
  currency : String
  quantity_remaining : Nat
  valid_from : Nat
  expiration : Option Nat
  source_id : Option Nat
  contract : String
  fee_bps : Nat
  fee_breakdown : List FeeEntry
  raw_prices : List Nat
  specific_ids : List String
  missing_royalties : List MissingRoyalty
  normalized_value : Int
  deriving DecidableEq

/-- The `orders` table. -/
abbrev Store (Id : Type) := List (DbOrder Id)

/-- External collaborators consumed by `save`.  A `none` result models the
corresponding call throwing (or, for the token-set registries, returning a null
id, which the source also turns into a thrown error). -/
structure Env (Id : Type) where
  keccak : List String → List String → Id
  poolDetails : String → Option Pool
  poolPrice : String → Nat → Option PoolPrice
  royalties : String → Option (List Royalty)
  contractWideTokenSet : String → Option String
  singleTokenTokenSet : String → String → Option String
  sourceId : Option Nat
  nftsHeld : String → String → List String

/-- `AddressZero` from `@ethersproject/constants`. -/
def AddressZero : String := "0x0000000000000000000000000000000000000000"

/-- The hardcoded single-pool allow-list (source line 55). -/
def allowedPool : String := "0x569a0ff212efe6b2fac806765ef59ce6685f2dd2"

/-- `generateSchemaHash()` with no argument: a fixed schema hash. -/
def defaultSchemaHash : String := "default-schema-hash"

/-- `getOrderId` (source lines 35-40): buy orders hash `("nftx", pool, side)`,
sell orders additionally hash the token id.  The hash function is passed in so
that collision-freedom can be hypothesised rather than baked in. -/
def getOrderId {Id : Type} (keccak : List String → List String → Id)
    (pool : String) (side : Side) (tokenId : Option String) : Id :=
  match side with
  | Side.buy => keccak ["string", "address", "string"] ["nftx", pool, "buy"]
  | Side.sell =>
      keccak ["string", "address", "string", "uint256"]
        (["nftx", pool, "sell"] ++ tokenId.toList)

/-- `SELECT 1 FROM orders WHERE orders.id = $/id/` (existence probe). -/
def storeHas {Id : Type} [DecidableEq Id] (st : Store Id) (i : Id) : Bool :=
  st.any (fun r => decide (r.id = i))

/-- Number of rows of the table carrying a given id. -/
def rowCount {Id : Type} [DecidableEq Id] (st : Store Id) (i : Id) : Nat :=
  st.countP (fun r => decide (r.id = i))

/-- First row of the table carrying a given id, if any. -/
def rowFind {Id : Type} [DecidableEq Id] (st : Store Id) (i : Id) :
    Option (DbOrder Id) :=
  st.find? (fun r => decide (r.id = i))

/-- `UPDATE orders SET ... WHERE orders.id = $/id/`: rewrites every row whose
id matches (a no-op when no row matches). -/
def updateOrder {Id : Type} [DecidableEq Id] (st : Store Id) (i : Id)
    (f : DbOrder Id → DbOrder Id) : Store Id :=
  st.map (fun r => if r.id = i then f r else r)

/-- `INSERT ... ON CONFLICT DO NOTHING` (source line 521): rows are attempted
in order; a row whose id is already present — in the table or appended by an
earlier row of the same statement — is silently dropped. -/
def insertIgnore {Id : Type} [DecidableEq Id] :
    Store Id → List (DbOrder Id) → Store Id
  | st, [] => st
  | st, r :: rows =>
      insertIgnore (if storeHas st r.id then st else st ++ [r]) rows

/-- The inlined royalty top-up computation (source lines 109-130 and 311-330,
identical in both legs).  Built-in royalty bps is 0; when the default
schedule's total exceeds it, the whole difference is attributed to the first
recipient with non-zero bps and non-zero address.  Returns the
missing-royalty list together with the total missing amount. -/
def computeMissingRoyalties (defaultRoyalties : List Royalty) (price : Nat) :
    List MissingRoyalty × Nat :=
  let totalBuiltInBps := 0
  let totalDefaultBps := (defaultRoyalties.map (fun r => r.bps)).sum
  if totalBuiltInBps < totalDefaultBps then
    let validRecipients := defaultRoyalties.filter
      (fun r => r.bps != 0 && r.recipient != AddressZero)
    match validRecipients with
    | [] => ([], 0)
    | v :: _ =>
        let bpsDiff := totalDefaultBps - totalBuiltInBps
        let amount := price * bpsDiff / 10000
        ([⟨bpsDiff, amount, v.recipient⟩], amount)
  else ([], 0)

/-- What one leg (or one per-item step) contributes: results pushed, rows
buffered for the bulk insert, and the store after the leg's immediate
updates, plus the event-scoped mutable fee state. -/
structure LegOut (Id : Type) where
  results : List (SaveResult Id)
  newOrders : List (DbOrder Id)
  store : Store Id
  feeBps : Nat
  feeBreakdown : List FeeEntry

/-- The buy-order leg (source lines 81-281).  `feeBps` / `feeBreakdown` are
the event-scoped mutable fee state shared with the sell leg; the assignment
and push at lines 96-101 happen before any call that can throw, so they
survive a later failure of the leg.  A thrown error is caught by the leg's own
`catch`: the leg then contributes nothing beyond the mutations already made. -/
def buyLeg {Id : Type} [DecidableEq Id] (env : Env Id) (pool : Pool)
    (ev : OrderParams) (priceList : List PoolPrice) (st : Store Id)
    (feeBps : Nat) (feeBreakdown : List FeeEntry) : LegOut Id :=
  match priceList with
  | [] => ⟨[], [], st, feeBps, feeBreakdown⟩
  | q0 :: _ =>
    let id := getOrderId env.keccak ev.pool Side.buy none
    let prices := priceList.filterMap (fun q => q.raw.sell)
    match q0.sell with
    | none =>
        -- Pool cannot sell to a taker: mark any existing buy order
        -- `no-balance` with expiration at the triggering transaction time
        -- (source lines 258-275).  The result is pushed unconditionally.
        ⟨[⟨id, ev.txHash, "success", some TriggerKind.reprice⟩], [],
         updateOrder st id (fun r =>
           { r with
             fillability_status := "no-balance"
             expiration := some ev.txTimestamp }),
         feeBps, feeBreakdown⟩
    | some sellPrice =>
      let feeBps' := q0.bps.sell
      let feeBreakdown' := feeBreakdown ++ [⟨"marketplace", pool.address, feeBps'⟩]
      match env.royalties ("contract:" ++ pool.nft) with
      | none => ⟨[], [], st, feeBps', feeBreakdown'⟩
      | some defaultRoyalties =>
        match prices with
        | [] =>
            -- `prices[0]` is undefined: the leg throws before reaching the
            -- store (at `bn(price)` or `price.toString()`).
            ⟨[], [], st, feeBps', feeBreakdown'⟩
        | price :: _ =>
          let value := sellPrice
          let mr := computeMissingRoyalties defaultRoyalties price
          let normalizedValue : Int := (value : Int) - (mr.2 : Int)
          if storeHas st id then
            ⟨[⟨id, ev.txHash, "success", some TriggerKind.reprice⟩], [],
             updateOrder st id (fun r =>
               { r with
                 fillability_status := "fillable"
                 price := price
                 value := value
                 quantity_remaining := prices.length
                 valid_from := ev.txTimestamp
                 expiration := none
                 raw_prices := prices
                 specific_ids := []
                 missing_royalties := mr.1
                 normalized_value := normalizedValue
                 fee_bps := feeBps'
                 fee_breakdown := feeBreakdown' }),
             feeBps', feeBreakdown'⟩
          else
            match env.contractWideTokenSet ("contract:" ++ pool.nft) with
            | none => ⟨[], [], st, feeBps', feeBreakdown'⟩
            | some tokenSetId =>
                ⟨[⟨id, ev.txHash, "success", some TriggerKind.newOrder⟩],
                 [{ id := id
                    kind := "nftx"
                    side := "buy"
                    fillability_status := "fillable"
                    approval_status := "approved"
                    token_set_id := tokenSetId
                    token_set_schema := defaultSchemaHash
                    maker := pool.address
                    taker := AddressZero
                    price := price
                    value := value
                    currency := q0.currency
                    quantity_remaining := prices.length
                    valid_from := ev.txTimestamp
                    expiration := none
                    source_id := env.sourceId
                    contract := pool.nft
                    fee_bps := feeBps'
                    fee_breakdown := feeBreakdown'
                    raw_prices := prices
                    specific_ids := []
                    missing_royalties := mr.1
                    normalized_value := normalizedValue }],
                 st, feeBps', feeBreakdown'⟩

/-- One iteration of the sell-leg `for` loop (source lines 336-464).  Any
failure is swallowed by the per-item `catch`; the only failure point after the
shared computations is the single-token token-set registration. -/
def sellItem {Id : Type} [DecidableEq Id] (env : Env Id) (pool : Pool)
    (ev : OrderParams) (price value : Nat) (prices : List Nat)
    (currency : String) (mrs : List MissingRoyalty) (normalizedValue : Int)
    (feeBps : Nat) (feeBreakdown : List FeeEntry) (st : Store Id)
    (tokenId : String) :
    List (SaveResult Id) × List (DbOrder Id) × Store Id :=
  let id := getOrderId env.keccak ev.pool Side.sell (some tokenId)
  if storeHas st id then
    ([⟨id, ev.txHash, "success", some TriggerKind.reprice⟩], [],
     updateOrder st id (fun r =>
       { r with
         fillability_status := "fillable"
         price := price
         value := value
         quantity_remaining := 1
         valid_from := ev.txTimestamp
         expiration := none
         raw_prices := prices
         specific_ids := [tokenId]
         missing_royalties := mrs
         normalized_value := normalizedValue
         fee_bps := feeBps
         fee_breakdown := feeBreakdown }))
  else
    match env.singleTokenTokenSet pool.nft tokenId with
    | none => ([], [], st)
    | some tokenSetId =>
        ([⟨id, ev.txHash, "success", some TriggerKind.newOrder⟩],
         [{ id := id
            kind := "nftx"
            side := "sell"
            fillability_status := "fillable"
            approval_status := "approved"
            token_set_id := tokenSetId
            token_set_schema := defaultSchemaHash
            maker := pool.address
            taker := AddressZero
            price := price
            value := value
            currency := currency
            quantity_remaining := 1
            valid_from := ev.txTimestamp
            expiration := none
            source_id := env.sourceId
            contract := pool.nft
            fee_bps := feeBps
            fee_breakdown := feeBreakdown
            raw_prices := prices
            specific_ids := [tokenId]
            missing_royalties := mrs
            normalized_value := normalizedValue }],
         st)

/-- The sell-leg loop over every token id currently held by the pool, with the
store threaded through the immediate updates. -/
def sellItems {Id : Type} [DecidableEq Id] (env : Env Id) (pool : Pool)
    (ev : OrderParams) (price value : Nat) (prices : List Nat)
    (currency : String) (mrs : List MissingRoyalty) (normalizedValue : Int)
    (feeBps : Nat) (feeBreakdown : List FeeEntry) :
    List String → Store Id →
      List (SaveResult Id) × List (DbOrder Id) × Store Id
  | [], st => ([], [], st)
  | t :: ts, st =>
      let out := sellItem env pool ev price value prices currency mrs
        normalizedValue feeBps feeBreakdown st t
      let rest := sellItems env pool ev price value prices currency mrs
        normalizedValue feeBps feeBreakdown ts out.2.2
      (out.1 ++ rest.1, out.2.1 ++ rest.2.1, rest.2.2)

/-- The sell-order leg (source lines 284-471): driven by the buy-direction
prices, fanned out over every item the pool holds.  When the first quote has
no buy price the leg skips without touching anything (line 293). -/
def sellLeg {Id : Type} [DecidableEq Id] (env : Env Id) (pool : Pool)
    (ev : OrderParams) (priceList : List PoolPrice) (st : Store Id)
    (feeBps : Nat) (feeBreakdown : List FeeEntry) : LegOut Id :=
  match priceList with
  | [] => ⟨[], [], st, feeBps, feeBreakdown⟩
  | q0 :: _ =>
    let prices := priceList.filterMap (fun q => q.raw.buy)
    match q0.buy with
    | none => ⟨[], [], st, feeBps, feeBreakdown⟩
    | some buyPrice =>
      let feeBps' := q0.bps.buy
      let feeBreakdown' := feeBreakdown ++ [⟨"marketplace", pool.address, feeBps'⟩]
      match env.royalties ("contract:" ++ pool.nft) with
      | none => ⟨[], [], st, feeBps', feeBreakdown'⟩
      | some defaultRoyalties =>
        match prices with
        | [] =>
            -- `prices[0]` is undefined: every use of it throws (outside the
            -- loop in the royalty block, or per item at `price.toString()`),
            -- so no item contributes anything either way.
            ⟨[], [], st, feeBps', feeBreakdown'⟩
        | price :: _ =>
          let value := buyPrice
          let mr := computeMissingRoyalties defaultRoyalties price
          let normalizedValue : Int := (value : Int) + (mr.2 : Int)
          let tokenIds := env.nftsHeld pool.nft pool.address
          let out := sellItems env pool ev price value prices q0.currency
            mr.1 normalizedValue feeBps' feeBreakdown' tokenIds st
          ⟨out.1, out.2.1, out.2.2, feeBps', feeBreakdown'⟩

/-- What one pool event contributes to the batch. -/
structure EventOut (Id : Type) where
  results : List (SaveResult Id)
  newOrders : List (DbOrder Id)
  store : Store Id

/-- The two legs of one event, run in order: the buy leg starts from the
event-scoped fee state `feeBps = 0`, `feeBreakdown = []` (source lines 73-78)
and the sell leg receives whatever fee state and store the buy leg left. -/
def handleLegs {Id : Type} [DecidableEq Id] (env : Env Id) (pool : Pool)
    (ev : OrderParams) (priceList : List PoolPrice) (st : Store Id) :
    EventOut Id :=
  let b := buyLeg env pool ev priceList st 0 []
  let s := sellLeg env pool ev priceList b.store b.feeBps b.feeBreakdown
  ⟨b.results ++ s.results, b.newOrders ++ s.newOrders, s.store⟩

/-- `handleOrder` (source lines 47-478): pool-detail lookup, allow-list check,
the ten sequential oracle calls, then the buy leg followed by the sell leg.
A failure of the detail lookup or of any oracle call skips the whole event. -/
def handleOrder {Id : Type} [DecidableEq Id] (env : Env Id) (st : Store Id)
    (ev : OrderParams) : EventOut Id :=
  match env.poolDetails ev.pool with
  | none => ⟨[], [], st⟩
  | some pool =>
    if ev.pool = allowedPool then
      match (List.range 10).mapM (fun i => env.poolPrice ev.pool (i + 1)) with
      | none => ⟨[], [], st⟩
      | some priceList => handleLegs env pool ev priceList st
    else ⟨[], [], st⟩

/-- Sequential execution of the event batch, accumulating results and the
shared buffer of rows to insert while threading the store through the
immediate updates. -/
def runEvents {Id : Type} [DecidableEq Id] (env : Env Id) :
    List OrderParams → Store Id → EventOut Id
  | [], st => ⟨[], [], st⟩
  | ev :: evs, st =>
      let out := handleOrder env st ev
      let rest := runEvents env evs out.store
      ⟨out.results ++ rest.results, out.newOrders ++ rest.newOrders, rest.store⟩

/-- `save` (source lines 42-540): run every event, then flush all buffered new
orders in a single conflict-ignoring bulk insert.  Returns the result list and
the final store. -/
def save {Id : Type} [DecidableEq Id] (env : Env Id)
    (orderInfos : List OrderParams) (st : Store Id) :
    List (SaveResult Id) × Store Id :=
  let out := runEvents env orderInfos st
  (out.results, insertIgnore out.store out.newOrders)

/-! ## Store lemmas -/

variable {Id : Type} [DecidableEq Id]

theorem storeHas_iff (st : Store Id) (i : Id) :
    storeHas st i = true ↔ ∃ r ∈ st, r.id = i := by
  simp [storeHas]

theorem storeHas_eq_false_iff (st : Store Id) (i : Id) :
    storeHas st i = false ↔ ∀ r ∈ st, r.id ≠ i := by
  simp [storeHas]

theorem storeHas_eq_ids (st : Store Id) (i : Id) :
    storeHas st i = (st.map (fun r => r.id)).any (fun x => decide (x = i)) := by
  induction st with
  | nil => rfl
  | cons r rs ih =>
      simp only [storeHas, List.map_cons, List.any_cons] at ih ⊢
      rw [ih]

theorem rowCount_eq_ids (st : Store Id) (i : Id) :
    rowCount st i = (st.map (fun r => r.id)).countP (fun x => decide (x = i)) := by
  induction st with
  | nil => rfl
  | cons r rs ih =>
      simp only [rowCount, List.map_cons, List.countP_cons] at ih ⊢
      rw [ih]

theorem rowCount_eq_zero_iff (st : Store Id) (i : Id) :
    rowCount st i = 0 ↔ storeHas st i = false := by
  simp [rowCount, storeHas, List.countP_eq_zero]

theorem rowCount_pos_of_storeHas {st : Store Id} {i : Id}
    (h : storeHas st i = true) : 0 < rowCount st i := by
  rcases Nat.eq_zero_or_pos (rowCount st i) with h0 | hpos
  · rw [(rowCount_eq_zero_iff st i).mp h0] at h
    cases h
  · exact hpos

theorem rowFind_cons (r : DbOrder Id) (st : Store Id) (i : Id) :
    rowFind (r :: st) i = if r.id = i then some r else rowFind st i := by
  by_cases h : r.id = i <;> simp [rowFind, List.find?_cons, h]

theorem rowFind_eq_none_iff (st : Store Id) (i : Id) :
    rowFind st i = none ↔ storeHas st i = false := by
  simp [rowFind, storeHas, List.find?_eq_none]

theorem rowFind_append (st₁ st₂ : Store Id) (i : Id) :
    rowFind (st₁ ++ st₂) i =
      match rowFind st₁ i with
      | some r => some r
      | none => rowFind st₂ i := by
  induction st₁ with
  | nil => simp [rowFind]
  | cons r rs ih =>
      by_cases h : r.id = i <;>
        simp [rowFind_cons, h, List.cons_append, ih]

/-! ## `updateOrder` lemmas -/

theorem updateOrder_ids (st : Store Id) (i : Id)
    (f : DbOrder Id → DbOrder Id) (hf : ∀ r, (f r).id = r.id) :
    (updateOrder st i f).map (fun r => r.id) = st.map (fun r => r.id) := by
  induction st with
  | nil => rfl
  | cons r rs ih =>
      by_cases h : r.id = i <;>
        simp [updateOrder, h, hf] at ih ⊢ <;> exact ih

theorem updateOrder_absent (st : Store Id) (i : Id)
    (f : DbOrder Id → DbOrder Id) (h : storeHas st i = false) :
    updateOrder st i f = st := by
  induction st with
  | nil => rfl
  | cons r rs ih =>
      rw [storeHas_eq_false_iff] at h ih
      simp only [updateOrder, List.map_cons]
      rw [if_neg (h r (List.mem_cons_self r rs))]
      have : updateOrder rs i f = rs :=
        ih (fun r' hr' => h r' (List.mem_cons_of_mem r hr'))
      simpa [updateOrder] using this

theorem mem_updateOrder {st : Store Id} {i : Id}
    {f : DbOrder Id → DbOrder Id} {r : DbOrder Id}
    (h : r ∈ updateOrder st i f) :
    r ∈ st ∨ ∃ r₀ ∈ st, r₀.id = i ∧ r = f r₀ := by
  rcases List.mem_map.mp h with ⟨r₀, hr₀, heq⟩
  by_cases hid : r₀.id = i
  · right
    refine ⟨r₀, hr₀, hid, ?_⟩
    rw [if_pos hid] at heq
    exact heq.symm
  · left
    rw [if_neg hid] at heq
    exact heq ▸ hr₀

theorem rowFind_updateOrder (st : Store Id) (i : Id)
    (f : DbOrder Id → DbOrder Id) (hf : ∀ r, (f r).id = r.id) (j : Id) :
    rowFind (updateOrder st i f) j =
      (rowFind st j).map (fun r => if r.id = i then f r else r) := by
  induction st with
  | nil => rfl
  | cons r rs ih =>
      simp only [updateOrder, List.map_cons]
      by_cases hj : r.id = j
      · have hid : (if r.id = i then f r else r).id = j := by
          by_cases hi : r.id = i
          · rw [if_pos hi, hf r]
            exact hj
          · rw [if_neg hi]
            exact hj
        rw [rowFind_cons, if_pos hid, rowFind_cons, if_pos hj]
        rfl
      · have hid : ¬(if r.id = i then f r else r).id = j := by
          by_cases hi : r.id = i
          · rw [if_pos hi, hf r]
            exact hj
          · rw [if_neg hi]
            exact hj
        rw [rowFind_cons, if_neg hid, rowFind_cons, if_neg hj]
        exact ih

/-! ## `insertIgnore` lemmas -/

theorem insertIgnore_rowFind (rows : List (DbOrder Id)) (st : Store Id)
    (i : Id) :
    rowFind (insertIgnore st rows) i =
      match rowFind st i with
      | some r => some r
      | none => rowFind rows i := by
  induction rows generalizing st with
  | nil =>
      show rowFind st i = _
      cases h : rowFind st i <;> rfl
  | cons r rs ih =>
      show rowFind (insertIgnore (if storeHas st r.id then st else st ++ [r]) rs) i = _
      by_cases hh : storeHas st r.id
      · rw [if_pos hh, ih]
        by_cases hri : r.id = i
        · subst hri
          have : rowFind st r.id ≠ none := by
            rw [ne_eq, rowFind_eq_none_iff, hh]
            simp
          cases h : rowFind st r.id with
          | none => exact absurd h this
          | some r' => simp [rowFind_cons]
        · cases h : rowFind st i <;> simp [rowFind_cons, hri]
      · rw [if_neg hh, ih]
        have hnone : rowFind st r.id = none :=
          (rowFind_eq_none_iff st r.id).mpr (Bool.eq_false_iff.mpr hh)
        by_cases hri : r.id = i
        · subst hri
          rw [rowFind_append, hnone]
          simp [rowFind_cons, rowFind]
        · rw [rowFind_append]
          cases h : rowFind st i <;> simp [rowFind_cons, hri, rowFind]

theorem insertIgnore_rowCount (rows : List (DbOrder Id)) (st : Store Id)
    (i : Id) :
    rowCount (insertIgnore st rows) i =
      if rowCount st i = 0 ∧ storeHas rows i = true then 1
      else rowCount st i := by
  induction rows generalizing st with
  | nil => simp [insertIgnore, storeHas]
  | cons r rs ih =>
      show rowCount (insertIgnore (if storeHas st r.id then st else st ++ [r]) rs) i = _
      by_cases hh : storeHas st r.id
      · rw [if_pos hh, ih]
        by_cases hri : r.id = i
        · subst hri
          have hpos : rowCount st r.id ≠ 0 := by
            intro h0
            rw [(rowCount_eq_zero_iff st r.id).mp h0] at hh
            cases hh
          simp [hpos]
        · simp [storeHas, hri]
      · rw [if_neg hh, ih]
        have h0 : rowCount st r.id = 0 :=
          (rowCount_eq_zero_iff st r.id).mpr (Bool.eq_false_iff.mpr hh)
        by_cases hri : r.id = i
        · subst hri
          have happ : rowCount (st ++ [r]) r.id = 1 := by
            simp only [rowCount, List.countP_append] at h0 ⊢
            simp [h0]
          simp [happ, h0, storeHas]
        · have happ : rowCount (st ++ [r]) i = rowCount st i := by
            simp [rowCount, List.countP_append, hri]
          simp [happ, storeHas, hri]

theorem insertIgnore_rowCount_le_one (rows : List (DbOrder Id))
    (st : Store Id) (h : ∀ i, rowCount st i ≤ 1) (i : Id) :
    rowCount (insertIgnore st rows) i ≤ 1 := by
  rw [insertIgnore_rowCount]
  split
  · exact le_refl 1
  · exact h i

/-! ## Store-id invariance: the legs only rewrite rows in place before the
final flush, so the list of row ids is unchanged by everything up to the
bulk insert. -/

theorem storeHas_congr_ids {st st' : Store Id}
    (h : st'.map (fun r => r.id) = st.map (fun r => r.id)) (i : Id) :
    storeHas st' i = storeHas st i := by
  rw [storeHas_eq_ids, storeHas_eq_ids, h]

theorem rowCount_congr_ids {st st' : Store Id}
    (h : st'.map (fun r => r.id) = st.map (fun r => r.id)) (i : Id) :
    rowCount st' i = rowCount st i := by
  rw [rowCount_eq_ids, rowCount_eq_ids, h]

theorem buyLeg_store_ids (env : Env Id) (pool : Pool) (ev : OrderParams)
    (priceList : List PoolPrice) (st : Store Id) (fb : Nat)
    (fbd : List FeeEntry) :
    ((buyLeg env pool ev priceList st fb fbd).store).map (fun r => r.id) =
      st.map (fun r => r.id) := by
  unfold buyLeg
  dsimp only
  repeat' split
  all_goals first
    | rfl
    | exact updateOrder_ids st _ _ (fun r => rfl)

theorem sellItem_store_ids (env : Env Id) (pool : Pool) (ev : OrderParams)
    (price value : Nat) (prices : List Nat) (currency : String)
    (mrs : List MissingRoyalty) (nv : Int) (fb : Nat) (fbd : List FeeEntry)
    (st : Store Id) (t : String) :
    ((sellItem env pool ev price value prices currency mrs nv fb fbd st t).2.2).map
        (fun r => r.id) = st.map (fun r => r.id) := by
  unfold sellItem
  dsimp only
  repeat' split
  all_goals first
    | rfl
    | exact updateOrder_ids st _ _ (fun r => rfl)

theorem sellItems_store_ids (env : Env Id) (pool : Pool) (ev : OrderParams)
    (price value : Nat) (prices : List Nat) (currency : String)
    (mrs : List MissingRoyalty) (nv : Int) (fb : Nat) (fbd : List FeeEntry)
    (ts : List String) (st : Store Id) :
    ((sellItems env pool ev price value prices currency mrs nv fb fbd ts st).2.2).map
        (fun r => r.id) = st.map (fun r => r.id) := by
  induction ts generalizing st with
  | nil => rfl
  | cons t ts ih =>
      show ((sellItems env pool ev price value prices currency mrs nv fb fbd ts
        ((sellItem env pool ev price value prices currency mrs nv fb fbd st t).2.2)).2.2).map
          (fun r => r.id) = st.map (fun r => r.id)
      rw [ih, sellItem_store_ids]

theorem sellLeg_store_ids (env : Env Id) (pool : Pool) (ev : OrderParams)
    (priceList : List PoolPrice) (st : Store Id) (fb : Nat)
    (fbd : List FeeEntry) :
    ((sellLeg env pool ev priceList st fb fbd).store).map (fun r => r.id) =
      st.map (fun r => r.id) := by
  unfold sellLeg
  dsimp only
  repeat' split
  all_goals first
    | rfl
    | apply sellItems_store_ids

theorem handleLegs_store_ids (env : Env Id) (pool : Pool) (ev : OrderParams)
    (priceList : List PoolPrice) (st : Store Id) :
    ((handleLegs env pool ev priceList st).store).map (fun r => r.id) =
      st.map (fun r => r.id) := by
  unfold handleLegs
  dsimp only
  rw [sellLeg_store_ids, buyLeg_store_ids]

theorem handleOrder_store_ids (env : Env Id) (st : Store Id)
    (ev : OrderParams) :
    ((handleOrder env st ev).store).map (fun r => r.id) =
      st.map (fun r => r.id) := by
  unfold handleOrder
  repeat' split
  all_goals first
    | rfl
    | apply handleLegs_store_ids

theorem runEvents_store_ids (env : Env Id) (evs : List OrderParams)
    (st : Store Id) :
    ((runEvents env evs st).store).map (fun r => r.id) =
      st.map (fun r => r.id) := by
  induction evs generalizing st with
  | nil => rfl
  | cons ev evs ih =>
      show ((runEvents env evs (handleOrder env st ev).store).store).map
        (fun r => r.id) = st.map (fun r => r.id)
      rw [ih, handleOrder_store_ids]

theorem buyLeg_storeHas (env : Env Id) (pool : Pool) (ev : OrderParams)
    (priceList : List PoolPrice) (st : Store Id) (fb : Nat)
    (fbd : List FeeEntry) (i : Id) :
    storeHas (buyLeg env pool ev priceList st fb fbd).store i =
      storeHas st i :=
  storeHas_congr_ids (buyLeg_store_ids env pool ev priceList st fb fbd) i

theorem sellItem_storeHas (env : Env Id) (pool : Pool) (ev : OrderParams)
    (price value : Nat) (prices : List Nat) (currency : String)
    (mrs : List MissingRoyalty) (nv : Int) (fb : Nat) (fbd : List FeeEntry)
    (st : Store Id) (t : String) (i : Id) :
    storeHas (sellItem env pool ev price value prices currency mrs nv fb fbd st t).2.2 i =
      storeHas st i :=
  storeHas_congr_ids
    (sellItem_store_ids env pool ev price value prices currency mrs nv fb fbd st t) i

theorem sellItems_storeHas (env : Env Id) (pool : Pool) (ev : OrderParams)
    (price value : Nat) (prices : List Nat) (currency : String)
    (mrs : List MissingRoyalty) (nv : Int) (fb : Nat) (fbd : List FeeEntry)
    (ts : List String) (st : Store Id) (i : Id) :
    storeHas (sellItems env pool ev price value prices currency mrs nv fb fbd ts st).2.2 i =
      storeHas st i :=
  storeHas_congr_ids
    (sellItems_store_ids env pool ev price value prices currency mrs nv fb fbd ts st) i

theorem handleOrder_storeHas (env : Env Id) (st : Store Id)
    (ev : OrderParams) (i : Id) :
    storeHas (handleOrder env st ev).store i = storeHas st i :=
  storeHas_congr_ids (handleOrder_store_ids env st ev) i

theorem handleOrder_rowCount (env : Env Id) (st : Store Id)
    (ev : OrderParams) (i : Id) :
    rowCount (handleOrder env st ev).store i = rowCount st i :=
  rowCount_congr_ids (handleOrder_store_ids env st ev) i

theorem runEvents_storeHas (env : Env Id) (evs : List OrderParams)
    (st : Store Id) (i : Id) :
    storeHas (runEvents env evs st).store i = storeHas st i :=
  storeHas_congr_ids (runEvents_store_ids env evs st) i

theorem runEvents_rowCount (env : Env Id) (evs : List OrderParams)
    (st : Store Id) (i : Id) :
    rowCount (runEvents env evs st).store i = rowCount st i :=
  rowCount_congr_ids (runEvents_store_ids env evs st) i

/-! ## Result-shape lemmas for the buy leg -/

theorem buyLeg_results_tags (env : Env Id) (pool : Pool) (ev : OrderParams)
    (priceList : List PoolPrice) (st : Store Id) (fb : Nat)
    (fbd : List FeeEntry) :
    ∀ res ∈ (buyLeg env pool ev priceList st fb fbd).results,
      res.status = "success" ∧ res.txHash = ev.txHash ∧
      res.id = getOrderId env.keccak ev.pool Side.buy none ∧
      (res.triggerKind = some TriggerKind.newOrder ∨
        res.triggerKind = some TriggerKind.reprice) := by
  intro res hres
  unfold buyLeg at hres
  dsimp only at hres
  repeat' split at hres
  all_goals simp only [List.mem_singleton, List.not_mem_nil] at hres
  all_goals subst hres
  all_goals exact ⟨rfl, rfl, rfl, by simp⟩

theorem buyLeg_newOrder_inv {env : Env Id} {pool : Pool} {ev : OrderParams}
    {priceList : List PoolPrice} {st : Store Id} {fb : Nat}
    {fbd : List FeeEntry} {res : SaveResult Id}
    (hres : res ∈ (buyLeg env pool ev priceList st fb fbd).results)
    (hkind : res.triggerKind = some TriggerKind.newOrder) :
    res.id = getOrderId env.keccak ev.pool Side.buy none ∧
    storeHas st res.id = false ∧
    (∃ o ∈ (buyLeg env pool ev priceList st fb fbd).newOrders, o.id = res.id) ∧
    (∃ q0 qs v, priceList = q0 :: qs ∧ q0.sell = some v) ∧
    (∃ drs, env.royalties ("contract:" ++ pool.nft) = some drs) ∧
    (∃ p ps, priceList.filterMap (fun q => q.raw.sell) = p :: ps) ∧
    (∃ tsid, env.contractWideTokenSet ("contract:" ++ pool.nft) = some tsid) := by
  cases priceList with
  | nil => simp [buyLeg] at hres
  | cons q0 qs =>
    cases hs : q0.sell with
    | none =>
        simp only [buyLeg, hs, List.mem_singleton] at hres
        subst hres
        simp at hkind
    | some v =>
      cases hroy : env.royalties ("contract:" ++ pool.nft) with
      | none => simp [buyLeg, hs, hroy] at hres
      | some drs =>
        cases hp : (q0 :: qs).filterMap (fun q => q.raw.sell) with
        | nil => simp [buyLeg, hs, hroy, hp] at hres
        | cons p ps =>
          cases hh : storeHas st (getOrderId env.keccak ev.pool Side.buy none) with
          | true =>
              simp only [buyLeg, hs, hroy, hp, hh, if_true, List.mem_singleton] at hres
              subst hres
              simp at hkind
          | false =>
            cases hts : env.contractWideTokenSet ("contract:" ++ pool.nft) with
            | none => simp [buyLeg, hs, hroy, hp, hh, hts] at hres
            | some tsid =>
                simp only [buyLeg, hs, hroy, hp, hh, hts, Bool.false_eq_true,
                  if_false, List.mem_singleton] at hres
                subst hres
                have hbo : ∃ o ∈ (buyLeg env pool ev (q0 :: qs) st fb fbd).newOrders,
                    o.id = getOrderId env.keccak ev.pool Side.buy none := by
                  simp only [buyLeg, hs, hroy, hp, hh, hts, Bool.false_eq_true,
                    if_false]
                  exact ⟨_, List.mem_singleton_self _, rfl⟩
                exact ⟨rfl, hh, hbo, ⟨q0, qs, v, rfl, hs⟩, ⟨drs, rfl⟩,
                  ⟨p, ps, rfl⟩, ⟨tsid, rfl⟩⟩

theorem buyLeg_reprice_present {env : Env Id} {pool : Pool} {ev : OrderParams}
    {q0 : PoolPrice} {qs : List PoolPrice} {st : Store Id} {fb : Nat}
    {fbd : List FeeEntry} {v p : Nat} {ps : List Nat} {drs : List Royalty}
    (hs : q0.sell = some v)
    (hroy : env.royalties ("contract:" ++ pool.nft) = some drs)
    (hp : (q0 :: qs).filterMap (fun q => q.raw.sell) = p :: ps)
    (hh : storeHas st (getOrderId env.keccak ev.pool Side.buy none) = true) :
    (buyLeg env pool ev (q0 :: qs) st fb fbd).results =
      [⟨getOrderId env.keccak ev.pool Side.buy none, ev.txHash, "success",
        some TriggerKind.reprice⟩] := by
  simp [buyLeg, hs, hroy, hp, hh]

/-! ## Result-shape lemmas for the sell leg -/

theorem sellItem_results_tags {env : Env Id} {pool : Pool} {ev : OrderParams}
    {price value : Nat} {prices : List Nat} {currency : String}
    {mrs : List MissingRoyalty} {nv : Int} {fb : Nat} {fbd : List FeeEntry}
    {st : Store Id} {t : String} :
    ∀ res ∈ (sellItem env pool ev price value prices currency mrs nv fb fbd st t).1,
      res.status = "success" ∧ res.txHash = ev.txHash ∧
      res.id = getOrderId env.keccak ev.pool Side.sell (some t) ∧
      (res.triggerKind = some TriggerKind.newOrder ∨
        res.triggerKind = some TriggerKind.reprice) := by
  intro res hres
  unfold sellItem at hres
  dsimp only at hres
  repeat' split at hres
  all_goals simp only [List.mem_singleton, List.not_mem_nil] at hres
  all_goals subst hres
  all_goals exact ⟨rfl, rfl, rfl, by simp⟩

theorem sellItem_newOrder_inv {env : Env Id} {pool : Pool} {ev : OrderParams}
    {price value : Nat} {prices : List Nat} {currency : String}
    {mrs : List MissingRoyalty} {nv : Int} {fb : Nat} {fbd : List FeeEntry}
    {st : Store Id} {t : String} {res : SaveResult Id}
    (hres : res ∈ (sellItem env pool ev price value prices currency mrs nv fb fbd st t).1)
    (hkind : res.triggerKind = some TriggerKind.newOrder) :
    res.id = getOrderId env.keccak ev.pool Side.sell (some t) ∧
    storeHas st res.id = false ∧
    (∃ o ∈ (sellItem env pool ev price value prices currency mrs nv fb fbd st t).2.1,
      o.id = res.id) := by
  cases hh : storeHas st (getOrderId env.keccak ev.pool Side.sell (some t)) with
  | true =>
      simp only [sellItem, hh, if_true, List.mem_singleton] at hres
      subst hres
      simp at hkind
  | false =>
      cases hts : env.singleTokenTokenSet pool.nft t with
      | none => simp [sellItem, hh, hts] at hres
      | some tsid =>
          simp only [sellItem, hh, hts, Bool.false_eq_true, if_false,
            List.mem_singleton] at hres
          subst hres
          have hbo : ∃ o ∈ (sellItem env pool ev price value prices currency
              mrs nv fb fbd st t).2.1,
              o.id = getOrderId env.keccak ev.pool Side.sell (some t) := by
            simp only [sellItem, hh, hts, Bool.false_eq_true, if_false]
            exact ⟨_, List.mem_singleton_self _, rfl⟩
          exact ⟨rfl, hh, hbo⟩

theorem sellItems_results_tags {env : Env Id} {pool : Pool} {ev : OrderParams}
    {price value : Nat} {prices : List Nat} {currency : String}
    {mrs : List MissingRoyalty} {nv : Int} {fb : Nat} {fbd : List FeeEntry}
    {ts : List String} {st : Store Id} :
    ∀ res ∈ (sellItems env pool ev price value prices currency mrs nv fb fbd ts st).1,
      res.status = "success" ∧ res.txHash = ev.txHash ∧
      (res.triggerKind = some TriggerKind.newOrder ∨
        res.triggerKind = some TriggerKind.reprice) := by
  induction ts generalizing st with
  | nil =>
      intro res hres
      simp [sellItems] at hres
  | cons u ts ih =>
      intro res hres
      simp only [sellItems] at hres
      rcases List.mem_append.mp hres with h1 | h2
      · obtain ⟨ha, hb, _, hd⟩ := sellItem_results_tags res h1
        exact ⟨ha, hb, hd⟩
      · exact ih res h2

theorem sellItems_newOrder_inv {env : Env Id} {pool : Pool} {ev : OrderParams}
    {price value : Nat} {prices : List Nat} {currency : String}
    {mrs : List MissingRoyalty} {nv : Int} {fb : Nat} {fbd : List FeeEntry}
    {ts : List String} {st : Store Id} {res : SaveResult Id}
    (hres : res ∈ (sellItems env pool ev price value prices currency mrs nv fb fbd ts st).1)
    (hkind : res.triggerKind = some TriggerKind.newOrder) :
    storeHas st res.id = false ∧
    (∃ o ∈ (sellItems env pool ev price value prices currency mrs nv fb fbd ts st).2.1,
      o.id = res.id) ∧
    (∃ t ∈ ts, res.id = getOrderId env.keccak ev.pool Side.sell (some t)) := by
  induction ts generalizing st with
  | nil => simp [sellItems] at hres
  | cons u ts ih =>
      simp only [sellItems] at hres ⊢
      rcases List.mem_append.mp hres with h1 | h2
      · obtain ⟨hid, hfresh, o, ho, hoid⟩ := sellItem_newOrder_inv h1 hkind
        exact ⟨hfresh, ⟨o, List.mem_append_left _ ho, hoid⟩,
          ⟨u, List.mem_cons_self u ts, hid⟩⟩
      · obtain ⟨hfresh, ⟨o, ho, hoid⟩, ⟨w, hw, hid⟩⟩ := ih h2
        refine ⟨?_, ⟨o, List.mem_append_right _ ho, hoid⟩,
          ⟨w, List.mem_cons_of_mem u hw, hid⟩⟩
        rw [← sellItem_storeHas env pool ev price value prices currency mrs
          nv fb fbd st u res.id]
        exact hfresh

theorem sellItems_reprice_present {env : Env Id} {pool : Pool} {ev : OrderParams}
    {price value : Nat} {prices : List Nat} {currency : String}
    {mrs : List MissingRoyalty} {nv : Int} {fb : Nat} {fbd : List FeeEntry}
    {ts : List String} {st : Store Id} {t : String}
    (ht : t ∈ ts)
    (hh : storeHas st (getOrderId env.keccak ev.pool Side.sell (some t)) = true) :
    ∃ res ∈ (sellItems env pool ev price value prices currency mrs nv fb fbd ts st).1,
      res.id = getOrderId env.keccak ev.pool Side.sell (some t) ∧
      res.triggerKind = some TriggerKind.reprice := by
  induction ts generalizing st with
  | nil => cases ht
  | cons u ts ih =>
      simp only [sellItems]
      rcases List.mem_cons.mp ht with heq | hmem
      · rw [heq] at hh ⊢
        refine ⟨⟨getOrderId env.keccak ev.pool Side.sell (some u), ev.txHash,
          "success", some TriggerKind.reprice⟩, ?_, rfl, rfl⟩
        apply List.mem_append_left
        simp [sellItem, hh]
      · have hh' : storeHas
            (sellItem env pool ev price value prices currency mrs nv fb fbd st u).2.2
            (getOrderId env.keccak ev.pool Side.sell (some t)) = true := by
          rw [sellItem_storeHas]
          exact hh
        obtain ⟨res, hres, hid, hkind⟩ := ih hmem hh'
        exact ⟨res, List.mem_append_right _ hres, hid, hkind⟩

theorem sellLeg_results_tags {env : Env Id} {pool : Pool} {ev : OrderParams}
    {priceList : List PoolPrice} {st : Store Id} {fb : Nat}
    {fbd : List FeeEntry} :
    ∀ res ∈ (sellLeg env pool ev priceList st fb fbd).results,
      res.status = "success" ∧ res.txHash = ev.txHash ∧
      (res.triggerKind = some TriggerKind.newOrder ∨
        res.triggerKind = some TriggerKind.reprice) := by
  intro res hres
  cases priceList with
  | nil => simp [sellLeg] at hres
  | cons q0 qs =>
    cases hbuy : q0.buy with
    | none => simp [sellLeg, hbuy] at hres
    | some v =>
      cases hroy : env.royalties ("contract:" ++ pool.nft) with
      | none => simp [sellLeg, hbuy, hroy] at hres
      | some drs =>
        cases hp : (q0 :: qs).filterMap (fun q => q.raw.buy) with
        | nil => simp [sellLeg, hbuy, hroy, hp] at hres
        | cons p ps =>
            simp only [sellLeg, hbuy, hroy, hp] at hres
            exact sellItems_results_tags res hres

theorem sellLeg_newOrder_inv {env : Env Id} {pool : Pool} {ev : OrderParams}
    {priceList : List PoolPrice} {st : Store Id} {fb : Nat}
    {fbd : List FeeEntry} {res : SaveResult Id}
    (hres : res ∈ (sellLeg env pool ev priceList st fb fbd).results)
    (hkind : res.triggerKind = some TriggerKind.newOrder) :
    storeHas st res.id = false ∧
    (∃ o ∈ (sellLeg env pool ev priceList st fb fbd).newOrders, o.id = res.id) ∧
    (∃ t ∈ env.nftsHeld pool.nft pool.address,
      res.id = getOrderId env.keccak ev.pool Side.sell (some t)) ∧
    (∃ q0 qs v, priceList = q0 :: qs ∧ q0.buy = some v) ∧
    (∃ drs, env.royalties ("contract:" ++ pool.nft) = some drs) ∧
    (∃ p ps, priceList.filterMap (fun q => q.raw.buy) = p :: ps) := by
  cases priceList with
  | nil => simp [sellLeg] at hres
  | cons q0 qs =>
    cases hbuy : q0.buy with
    | none => simp [sellLeg, hbuy] at hres
    | some v =>
      cases hroy : env.royalties ("contract:" ++ pool.nft) with
      | none => simp [sellLeg, hbuy, hroy] at hres
      | some drs =>
        cases hp : (q0 :: qs).filterMap (fun q => q.raw.buy) with
        | nil => simp [sellLeg, hbuy, hroy, hp] at hres
        | cons p ps =>
            simp only [sellLeg, hbuy, hroy, hp] at hres ⊢
            obtain ⟨hfresh, ⟨o, ho, hoid⟩, ⟨t, ht, hid⟩⟩ :=
              sellItems_newOrder_inv hres hkind
            exact ⟨hfresh, ⟨o, ho, hoid⟩, ⟨t, ht, hid⟩,
              ⟨q0, qs, v, rfl, hbuy⟩, ⟨drs, rfl⟩, ⟨p, ps, rfl⟩⟩

theorem sellLeg_reprice_present {env : Env Id} {pool : Pool} {ev : OrderParams}
    {q0 : PoolPrice} {qs : List PoolPrice} {st : Store Id} {fb : Nat}
    {fbd : List FeeEntry} {v p : Nat} {ps : List Nat} {drs : List Royalty}
    {t : String}
    (hbuy : q0.buy = some v)
    (hroy : env.royalties ("contract:" ++ pool.nft) = some drs)
    (hp : (q0 :: qs).filterMap (fun q => q.raw.buy) = p :: ps)
    (ht : t ∈ env.nftsHeld pool.nft pool.address)
    (hh : storeHas st (getOrderId env.keccak ev.pool Side.sell (some t)) = true) :
    ∃ res ∈ (sellLeg env pool ev (q0 :: qs) st fb fbd).results,
      res.id = getOrderId env.keccak ev.pool Side.sell (some t) ∧
      res.triggerKind = some TriggerKind.reprice := by
  simp only [sellLeg, hbuy, hroy, hp]
  exact sellItems_reprice_present ht hh

/-! ## Event-level lemmas -/

theorem handleOrder_details_missing {env : Env Id} {st : Store Id}
    {ev : OrderParams} (hpd : env.poolDetails ev.pool = none) :
    handleOrder env st ev = ⟨[], [], st⟩ := by
  unfold handleOrder
  simp only [hpd]

theorem handleOrder_not_allowed {env : Env Id} {st : Store Id}
    {ev : OrderParams} (hal : ev.pool ≠ allowedPool) :
    handleOrder env st ev = ⟨[], [], st⟩ := by
  unfold handleOrder
  cases hpd : env.poolDetails ev.pool with
  | none => rfl
  | some pool =>
      dsimp only
      rw [if_neg hal]

theorem handleOrder_oracle_missing {env : Env Id} {st : Store Id}
    {ev : OrderParams} {pool : Pool}
    (hpd : env.poolDetails ev.pool = some pool)
    (hal : ev.pool = allowedPool)
    (hpl : (List.range 10).mapM (fun i => env.poolPrice ev.pool (i + 1)) = none) :
    handleOrder env st ev = ⟨[], [], st⟩ := by
  unfold handleOrder
  simp only [hpd]
  rw [if_pos hal]
  simp only [hpl]

theorem handleOrder_eq_legs {env : Env Id} {st : Store Id} {ev : OrderParams}
    {pool : Pool} {pl : List PoolPrice}
    (hpd : env.poolDetails ev.pool = some pool)
    (hal : ev.pool = allowedPool)
    (hpl : (List.range 10).mapM (fun i => env.poolPrice ev.pool (i + 1)) = some pl) :
    handleOrder env st ev = handleLegs env pool ev pl st := by
  unfold handleOrder
  simp only [hpd]
  rw [if_pos hal]
  simp only [hpl]

theorem handleLegs_results_tags {env : Env Id} {pool : Pool} {ev : OrderParams}
    {pl : List PoolPrice} {st : Store Id} :
    ∀ res ∈ (handleLegs env pool ev pl st).results,
      res.status = "success" ∧ res.txHash = ev.txHash ∧
      (res.triggerKind = some TriggerKind.newOrder ∨
        res.triggerKind = some TriggerKind.reprice) := by
  intro res hres
  unfold handleLegs at hres
  dsimp only at hres
  rcases List.mem_append.mp hres with h1 | h2
  · obtain ⟨ha, hb, _, hd⟩ := buyLeg_results_tags env pool ev pl st 0 [] res h1
    exact ⟨ha, hb, hd⟩
  · exact sellLeg_results_tags res h2

theorem handleLegs_newOrder_inv {env : Env Id} {pool : Pool} {ev : OrderParams}
    {pl : List PoolPrice} {st : Store Id} {res : SaveResult Id}
    (hres : res ∈ (handleLegs env pool ev pl st).results)
    (hkind : res.triggerKind = some TriggerKind.newOrder) :
    storeHas st res.id = false ∧
    (∃ o ∈ (handleLegs env pool ev pl st).newOrders, o.id = res.id) ∧
    ((res.id = getOrderId env.keccak ev.pool Side.buy none ∧
      (∃ q0 qs v, pl = q0 :: qs ∧ q0.sell = some v) ∧
      (∃ drs, env.royalties ("contract:" ++ pool.nft) = some drs) ∧
      (∃ p ps, pl.filterMap (fun q => q.raw.sell) = p :: ps)) ∨
     ((∃ t ∈ env.nftsHeld pool.nft pool.address,
        res.id = getOrderId env.keccak ev.pool Side.sell (some t)) ∧
      (∃ q0 qs v, pl = q0 :: qs ∧ q0.buy = some v) ∧
      (∃ drs, env.royalties ("contract:" ++ pool.nft) = some drs) ∧
      (∃ p ps, pl.filterMap (fun q => q.raw.buy) = p :: ps))) := by
  unfold handleLegs at hres ⊢
  dsimp only at hres ⊢
  rcases List.mem_append.mp hres with h1 | h2
  · obtain ⟨hid, hfresh, ⟨o, ho, hoid⟩, hq, hroy, hp, _⟩ :=
      buyLeg_newOrder_inv h1 hkind
    exact ⟨hfresh, ⟨o, List.mem_append_left _ ho, hoid⟩,
      Or.inl ⟨hid, hq, hroy, hp⟩⟩
  · obtain ⟨hfresh, ⟨o, ho, hoid⟩, htid, hq, hroy, hp⟩ :=
      sellLeg_newOrder_inv h2 hkind
    refine ⟨?_, ⟨o, List.mem_append_right _ ho, hoid⟩,
      Or.inr ⟨htid, hq, hroy, hp⟩⟩
    rw [← buyLeg_storeHas env pool ev pl st 0 [] res.id]
    exact hfresh

theorem handleOrder_results_tags {env : Env Id} {st : Store Id}
    {ev : OrderParams} :
    ∀ res ∈ (handleOrder env st ev).results,
      res.status = "success" ∧ res.txHash = ev.txHash ∧
      (res.triggerKind = some TriggerKind.newOrder ∨
        res.triggerKind = some TriggerKind.reprice) := by
  intro res hres
  cases hpd : env.poolDetails ev.pool with
  | none =>
      rw [handleOrder_details_missing hpd] at hres
      simp at hres
  | some pool =>
    by_cases hal : ev.pool = allowedPool
    · cases hpl : (List.range 10).mapM (fun i => env.poolPrice ev.pool (i + 1)) with
      | none =>
          rw [handleOrder_oracle_missing hpd hal hpl] at hres
          simp at hres
      | some pl =>
          rw [handleOrder_eq_legs hpd hal hpl] at hres
          exact handleLegs_results_tags res hres
    · rw [handleOrder_not_allowed hal] at hres
      simp at hres

theorem handleOrder_newOrder_inv {env : Env Id} {st : Store Id}
    {ev : OrderParams} {res : SaveResult Id}
    (hres : res ∈ (handleOrder env st ev).results)
    (hkind : res.triggerKind = some TriggerKind.newOrder) :
    storeHas st res.id = false ∧
    (∃ o ∈ (handleOrder env st ev).newOrders, o.id = res.id) ∧
    (∃ pool pl, env.poolDetails ev.pool = some pool ∧ ev.pool = allowedPool ∧
      (List.range 10).mapM (fun i => env.poolPrice ev.pool (i + 1)) = some pl ∧
      ((res.id = getOrderId env.keccak ev.pool Side.buy none ∧
        (∃ q0 qs v, pl = q0 :: qs ∧ q0.sell = some v) ∧
        (∃ drs, env.royalties ("contract:" ++ pool.nft) = some drs) ∧
        (∃ p ps, pl.filterMap (fun q => q.raw.sell) = p :: ps)) ∨
       ((∃ t ∈ env.nftsHeld pool.nft pool.address,
          res.id = getOrderId env.keccak ev.pool Side.sell (some t)) ∧
        (∃ q0 qs v, pl = q0 :: qs ∧ q0.buy = some v) ∧
        (∃ drs, env.royalties ("contract:" ++ pool.nft) = some drs) ∧
        (∃ p ps, pl.filterMap (fun q => q.raw.buy) = p :: ps)))) := by
  cases hpd : env.poolDetails ev.pool with
  | none =>
      rw [handleOrder_details_missing hpd] at hres
      simp at hres
  | some pool =>
    by_cases hal : ev.pool = allowedPool
    · cases hpl : (List.range 10).mapM (fun i => env.poolPrice ev.pool (i + 1)) with
      | none =>
          rw [handleOrder_oracle_missing hpd hal hpl] at hres
          simp at hres
      | some pl =>
          rw [handleOrder_eq_legs hpd hal hpl] at hres ⊢
          obtain ⟨hfresh, hbuf, hcase⟩ := handleLegs_newOrder_inv hres hkind
          exact ⟨hfresh, hbuf, pool, pl, rfl, hal, rfl, hcase⟩
    · rw [handleOrder_not_allowed hal] at hres
      simp at hres

theorem handleOrder_reprice_present {env : Env Id} {st : Store Id}
    {ev : OrderParams} {pool : Pool} {pl : List PoolPrice} {i : Id}
    (hpd : env.poolDetails ev.pool = some pool)
    (hal : ev.pool = allowedPool)
    (hpl : (List.range 10).mapM (fun j => env.poolPrice ev.pool (j + 1)) = some pl)
    (hcase :
      (i = getOrderId env.keccak ev.pool Side.buy none ∧
        (∃ q0 qs v, pl = q0 :: qs ∧ q0.sell = some v) ∧
        (∃ drs, env.royalties ("contract:" ++ pool.nft) = some drs) ∧
        (∃ p ps, pl.filterMap (fun q => q.raw.sell) = p :: ps)) ∨
      ((∃ t ∈ env.nftsHeld pool.nft pool.address,
         i = getOrderId env.keccak ev.pool Side.sell (some t)) ∧
        (∃ q0 qs v, pl = q0 :: qs ∧ q0.buy = some v) ∧
        (∃ drs, env.royalties ("contract:" ++ pool.nft) = some drs) ∧
        (∃ p ps, pl.filterMap (fun q => q.raw.buy) = p :: ps)))
    (hh : storeHas st i = true) :
    ∃ res ∈ (handleOrder env st ev).results,
      res.id = i ∧ res.triggerKind = some TriggerKind.reprice := by
  rw [handleOrder_eq_legs hpd hal hpl]
  unfold handleLegs
  dsimp only
  rcases hcase with ⟨hid, ⟨q0, qs, v, hpl', hs⟩, ⟨drs, hroy⟩, ⟨p, ps, hp⟩⟩ |
    ⟨⟨t, ht, hid⟩, ⟨q0, qs, v, hpl', hbuy⟩, ⟨drs, hroy⟩, ⟨p, ps, hp⟩⟩
  · subst hpl'
    subst hid
    refine ⟨⟨getOrderId env.keccak ev.pool Side.buy none, ev.txHash, "success",
      some TriggerKind.reprice⟩, ?_, rfl, rfl⟩
    apply List.mem_append_left
    rw [buyLeg_reprice_present hs hroy hp hh]
    exact List.mem_singleton_self _
  · subst hpl'
    subst hid
    have hh' : storeHas (buyLeg env pool ev (q0 :: qs) st 0 []).store
        (getOrderId env.keccak ev.pool Side.sell (some t)) = true := by
      rw [buyLeg_storeHas]
      exact hh
    obtain ⟨res, hres, hid', hkind⟩ := sellLeg_reprice_present hbuy hroy hp ht hh'
    exact ⟨res, List.mem_append_right _ hres, hid', hkind⟩

/-! ## Batch-level lemmas -/

theorem runEvents_cons (env : Env Id) (ev : OrderParams)
    (evs : List OrderParams) (st : Store Id) :
    runEvents env (ev :: evs) st =
      ⟨(handleOrder env st ev).results ++
          (runEvents env evs (handleOrder env st ev).store).results,
        (handleOrder env st ev).newOrders ++
          (runEvents env evs (handleOrder env st ev).store).newOrders,
        (runEvents env evs (handleOrder env st ev).store).store⟩ := rfl

theorem runEvents_singleton (env : Env Id) (ev : OrderParams) (st : Store Id) :
    runEvents env [ev] st =
      ⟨(handleOrder env st ev).results, (handleOrder env st ev).newOrders,
        (handleOrder env st ev).store⟩ := by
  rw [runEvents_cons]
  simp [runEvents]

theorem runEvents_results_tags (env : Env Id) (evs : List OrderParams)
    (st : Store Id) :
    ∀ res ∈ (runEvents env evs st).results,
      res.status = "success" ∧
      (res.triggerKind = some TriggerKind.newOrder ∨
        res.triggerKind = some TriggerKind.reprice) := by
  induction evs generalizing st with
  | nil =>
      intro res hres
      simp [runEvents] at hres
  | cons ev evs ih =>
      intro res hres
      rw [runEvents_cons] at hres
      rcases List.mem_append.mp hres with h1 | h2
      · obtain ⟨ha, _, hd⟩ := handleOrder_results_tags res h1
        exact ⟨ha, hd⟩
      · exact ih _ res h2

theorem save_results_success (env : Env Id) (evs : List OrderParams)
    (st : Store Id) :
    ∀ res ∈ (save env evs st).1, res.status = "success" := by
  intro res hres
  exact (runEvents_results_tags env evs st res hres).1

/-! ## Payload characterisation of the legs -/

theorem buyLeg_payload {env : Env Id} {pool : Pool} {ev : OrderParams}
    {q0 : PoolPrice} {qs : List PoolPrice} {st : Store Id} {fb : Nat}
    {fbd : List FeeEntry} {v p : Nat} {ps : List Nat} {drs : List Royalty}
    (hs : q0.sell = some v)
    (hroy : env.royalties ("contract:" ++ pool.nft) = some drs)
    (hp : (q0 :: qs).filterMap (fun q => q.raw.sell) = p :: ps) :
    (∀ o ∈ (buyLeg env pool ev (q0 :: qs) st fb fbd).newOrders,
      o.side = "buy" ∧ o.price = p ∧ o.value = v ∧
      o.normalized_value = (v : Int) - ((computeMissingRoyalties drs p).2 : Int) ∧
      o.missing_royalties = (computeMissingRoyalties drs p).1 ∧
      o.fee_bps = q0.bps.sell ∧
      o.fee_breakdown = fbd ++ [⟨"marketplace", pool.address, q0.bps.sell⟩] ∧
      o.quantity_remaining = (p :: ps).length) ∧
    (∀ r ∈ (buyLeg env pool ev (q0 :: qs) st fb fbd).store,
      r ∈ st ∨ (r.price = p ∧ r.value = v ∧
        r.normalized_value = (v : Int) - ((computeMissingRoyalties drs p).2 : Int) ∧
        r.missing_royalties = (computeMissingRoyalties drs p).1 ∧
        r.fee_bps = q0.bps.sell ∧
        r.fee_breakdown = fbd ++ [⟨"marketplace", pool.address, q0.bps.sell⟩] ∧
        r.quantity_remaining = (p :: ps).length)) := by
  constructor
  · intro o ho
    cases hh : storeHas st (getOrderId env.keccak ev.pool Side.buy none) with
    | true => simp [buyLeg, hs, hroy, hp, hh] at ho
    | false =>
        cases hts : env.contractWideTokenSet ("contract:" ++ pool.nft) with
        | none => simp [buyLeg, hs, hroy, hp, hh, hts] at ho
        | some tsid =>
            simp only [buyLeg, hs, hroy, hp, hh, hts, Bool.false_eq_true,
              if_false, List.mem_singleton] at ho
            subst ho
            exact ⟨rfl, rfl, rfl, rfl, rfl, rfl, rfl, rfl⟩
  · intro r hr
    cases hh : storeHas st (getOrderId env.keccak ev.pool Side.buy none) with
    | false =>
        cases hts : env.contractWideTokenSet ("contract:" ++ pool.nft) with
        | none => left; simpa [buyLeg, hs, hroy, hp, hh, hts] using hr
        | some tsid => left; simpa [buyLeg, hs, hroy, hp, hh, hts] using hr
    | true =>
        simp only [buyLeg, hs, hroy, hp, hh, if_true] at hr
        rcases mem_updateOrder hr with hmem | ⟨r₀, hr₀, hid, hreq⟩
        · exact Or.inl hmem
        · right
          subst hreq
          exact ⟨rfl, rfl, rfl, rfl, rfl, rfl, rfl⟩

theorem sellItem_payload {env : Env Id} {pool : Pool} {ev : OrderParams}
    {price value : Nat} {prices : List Nat} {currency : String}
    {mrs : List MissingRoyalty} {nv : Int} {fb : Nat} {fbd : List FeeEntry}
    {st : Store Id} {t : String} :
    (∀ o ∈ (sellItem env pool ev price value prices currency mrs nv fb fbd st t).2.1,
      o.side = "sell" ∧ o.price = price ∧ o.value = value ∧
      o.normalized_value = nv ∧ o.missing_royalties = mrs ∧
      o.fee_bps = fb ∧ o.fee_breakdown = fbd ∧ o.quantity_remaining = 1) ∧
    (∀ r ∈ (sellItem env pool ev price value prices currency mrs nv fb fbd st t).2.2,
      r ∈ st ∨ (r.price = price ∧ r.value = value ∧ r.normalized_value = nv ∧
        r.missing_royalties = mrs ∧ r.fee_bps = fb ∧ r.fee_breakdown = fbd ∧
        r.quantity_remaining = 1)) := by
  constructor
  · intro o ho
    cases hh : storeHas st (getOrderId env.keccak ev.pool Side.sell (some t)) with
    | true => simp [sellItem, hh] at ho
    | false =>
        cases hts : env.singleTokenTokenSet pool.nft t with
        | none => simp [sellItem, hh, hts] at ho
        | some tsid =>
            simp only [sellItem, hh, hts, Bool.false_eq_true, if_false,
              List.mem_singleton] at ho
            subst ho
            exact ⟨rfl, rfl, rfl, rfl, rfl, rfl, rfl, rfl⟩
  · intro r hr
    cases hh : storeHas st (getOrderId env.keccak ev.pool Side.sell (some t)) with
    | false =>
        cases hts : env.singleTokenTokenSet pool.nft t with
        | none => left; simpa [sellItem, hh, hts] using hr
        | some tsid => left; simpa [sellItem, hh, hts] using hr
    | true =>
        simp only [sellItem, hh, if_true] at hr
        rcases mem_updateOrder hr with hmem | ⟨r₀, hr₀, hid, hreq⟩
        · exact Or.inl hmem
        · right
          subst hreq
          exact ⟨rfl, rfl, rfl, rfl, rfl, rfl, rfl⟩

theorem sellItems_payload {env : Env Id} {pool : Pool} {ev : OrderParams}
    {price value : Nat} {prices : List Nat} {currency : String}
    {mrs : List MissingRoyalty} {nv : Int} {fb : Nat} {fbd : List FeeEntry}
    (ts : List String) (st : Store Id) :
    (∀ o ∈ (sellItems env pool ev price value prices currency mrs nv fb fbd ts st).2.1,
      o.side = "sell" ∧ o.price = price ∧ o.value = value ∧
      o.normalized_value = nv ∧ o.missing_royalties = mrs ∧
      o.fee_bps = fb ∧ o.fee_breakdown = fbd ∧ o.quantity_remaining = 1) ∧
    (∀ r ∈ (sellItems env pool ev price value prices currency mrs nv fb fbd ts st).2.2,
      r ∈ st ∨ (r.price = price ∧ r.value = value ∧ r.normalized_value = nv ∧
        r.missing_royalties = mrs ∧ r.fee_bps = fb ∧ r.fee_breakdown = fbd ∧
        r.quantity_remaining = 1)) := by
  induction ts generalizing st with
  | nil =>
      constructor
      · intro o ho
        simp [sellItems] at ho
      · intro r hr
        exact Or.inl hr
  | cons u ts ih =>
      constructor
      · intro o ho
        simp only [sellItems] at ho
        rcases List.mem_append.mp ho with h1 | h2
        · exact sellItem_payload.1 o h1
        · exact (ih _).1 o h2
      · intro r hr
        simp only [sellItems] at hr
        rcases (ih _).2 r hr with h1 | h2
        · rcases sellItem_payload.2 r h1 with h3 | h4
          · exact Or.inl h3
          · exact Or.inr h4
        · exact Or.inr h2

theorem sellLeg_payload {env : Env Id} {pool : Pool} {ev : OrderParams}
    {q0 : PoolPrice} {qs : List PoolPrice} {st : Store Id} {fb : Nat}
    {fbd : List FeeEntry} {v p : Nat} {ps : List Nat} {drs : List Royalty}
    (hbuy : q0.buy = some v)
    (hroy : env.royalties ("contract:" ++ pool.nft) = some drs)
    (hp : (q0 :: qs).filterMap (fun q => q.raw.buy) = p :: ps) :
    (∀ o ∈ (sellLeg env pool ev (q0 :: qs) st fb fbd).newOrders,
      o.side = "sell" ∧ o.price = p ∧ o.value = v ∧
      o.normalized_value = (v : Int) + ((computeMissingRoyalties drs p).2 : Int) ∧
      o.missing_royalties = (computeMissingRoyalties drs p).1 ∧
      o.fee_bps = q0.bps.buy ∧
      o.fee_breakdown = fbd ++ [⟨"marketplace", pool.address, q0.bps.buy⟩] ∧
      o.quantity_remaining = 1) ∧
    (∀ r ∈ (sellLeg env pool ev (q0 :: qs) st fb fbd).store,
      r ∈ st ∨ (r.price = p ∧ r.value = v ∧
        r.normalized_value = (v : Int) + ((computeMissingRoyalties drs p).2 : Int) ∧
        r.missing_royalties = (computeMissingRoyalties drs p).1 ∧
        r.fee_bps = q0.bps.buy ∧
        r.fee_breakdown = fbd ++ [⟨"marketplace", pool.address, q0.bps.buy⟩] ∧
        r.quantity_remaining = 1)) := by
  constructor
  · intro o ho
    simp only [sellLeg, hbuy, hroy, hp] at ho
    exact (sellItems_payload _ _).1 o ho
  · intro r hr
    simp only [sellLeg, hbuy, hroy, hp] at hr
    exact (sellItems_payload _ _).2 r hr

/-! ## Concrete environments used by witnesses and counterexamples -/

/-- Hash-input pairs: a concrete, collision-free stand-in for `keccak256`. -/
abbrev TupleId := List String × List String

/-- The pairing hash; injective by construction. -/
def tupleKeccak : List String → List String → TupleId := fun t v => (t, v)

theorem tupleKeccak_inj : ∀ t v t' v',
    tupleKeccak t v = tupleKeccak t' v' → t = t' ∧ v = v' := by
  intro t v t' v' h
  exact ⟨congrArg Prod.fst h, congrArg Prod.snd h⟩

def demoPool : Pool := ⟨allowedPool, "0xc0ffee", 5⟩

/-- A quote whose sell direction is priced (100) and whose buy direction is
not: the buy leg creates an order, the sell leg skips. -/
def demoQuote : PoolPrice :=
  { sell := some 100
    buy := none
    currency := "0xweth"
    bps := ⟨50, 70⟩
    raw := ⟨some 100, none⟩ }

def demoEnv : Env TupleId :=
  { keccak := tupleKeccak
    poolDetails := fun a => if a = allowedPool then some demoPool else none
    poolPrice := fun _ _ => some demoQuote
    royalties := fun _ => some []
    contractWideTokenSet := fun _ => some "ts:contract"
    singleTokenTokenSet := fun c t => some ("ts:" ++ c ++ ":" ++ t)
    sourceId := some 1
    nftsHeld := fun _ _ => [] }

def evA : OrderParams := ⟨allowedPool, 100, "0xtxA"⟩

def evB : OrderParams := ⟨allowedPool, 200, "0xtxB"⟩

/-! ## Claim theorems -/

/-- **C2.** The order identity is a pure deterministic function of
(pool, side, optional item id): repeated calls agree; under collision-freedom
of the hash, the buy identity of a pool differs from the identity of any other
pool or side, and two distinct items of the same pool have distinct sell
identities. -/
theorem getOrderId_spec {Id : Type} (keccak : List String → List String → Id)
    (hinj : ∀ t v t' v', keccak t v = keccak t' v' → t = t' ∧ v = v') :
    (∀ pool tid,
      getOrderId keccak pool Side.buy tid = getOrderId keccak pool Side.buy tid) ∧
    (∀ pool pool' side' tid tid', pool ≠ pool' ∨ side' ≠ Side.buy →
      getOrderId keccak pool Side.buy tid ≠ getOrderId keccak pool' side' tid') ∧
    (∀ pool i j, i ≠ j →
      getOrderId keccak pool Side.sell (some i) ≠
        getOrderId keccak pool Side.sell (some j)) := by
  refine ⟨fun pool tid => rfl, ?_, ?_⟩
  · intro pool pool' side' tid tid' hne heq
    cases side' with
    | buy =>
        obtain ⟨-, hv⟩ := hinj _ _ _ _ heq
        simp only [List.cons.injEq, and_true, true_and] at hv
        rcases hne with hp | hs
        · exact hp hv
        · exact hs rfl
    | sell =>
        obtain ⟨ht, -⟩ := hinj _ _ _ _ heq
        simp at ht
  · intro pool i j hij heq
    obtain ⟨-, hv⟩ := hinj _ _ _ _ heq
    simp at hv
    exact hij hv

/-- Witness for C2 at concrete inputs using the injective pairing hash. -/
theorem getOrderId_spec_witness :
    getOrderId tupleKeccak "0xa" Side.buy none ≠
      getOrderId tupleKeccak "0xb" Side.buy none ∧
    getOrderId tupleKeccak "0xa" Side.buy none ≠
      getOrderId tupleKeccak "0xa" Side.sell (some "1") ∧
    getOrderId tupleKeccak "0xa" Side.sell (some "1") ≠
      getOrderId tupleKeccak "0xa" Side.sell (some "2") := by
  refine ⟨?_, ?_, ?_⟩
  · exact (getOrderId_spec tupleKeccak tupleKeccak_inj).2.1 "0xa" "0xb" Side.buy
      none none (Or.inl (by decide))
  · exact (getOrderId_spec tupleKeccak tupleKeccak_inj).2.1 "0xa" "0xa" Side.sell
      none (some "1") (Or.inr (by decide))
  · exact (getOrderId_spec tupleKeccak tupleKeccak_inj).2.2 "0xa" "1" "2"
      (by decide)

/-- **C1.** Reconciling the same triggering event a second time with unchanged
oracle data never creates a second row for an identity: if the store has at
most one row per identity, then after the first `save` and after the second
`save` it still has at most one row per identity; and whenever the first run
records a `new-order` result for an identity, that identity has exactly one
row after each run, and the second run records a `reprice` result for it while
every result it records for that identity is a `reprice`. -/
theorem reconcile_idempotent {Id : Type} [DecidableEq Id] (env : Env Id)
    (ev : OrderParams) (st0 : Store Id)
    (hone : ∀ i, rowCount st0 i ≤ 1) :
    (∀ i, rowCount (save env [ev] st0).2 i ≤ 1) ∧
    (∀ i, rowCount (save env [ev] (save env [ev] st0).2).2 i ≤ 1) ∧
    (∀ res ∈ (save env [ev] st0).1,
      res.triggerKind = some TriggerKind.newOrder →
      rowCount (save env [ev] st0).2 res.id = 1 ∧
      rowCount (save env [ev] (save env [ev] st0).2).2 res.id = 1 ∧
      (∃ res' ∈ (save env [ev] (save env [ev] st0).2).1,
        res'.id = res.id ∧ res'.triggerKind = some TriggerKind.reprice) ∧
      (∀ res' ∈ (save env [ev] (save env [ev] st0).2).1, res'.id = res.id →
        res'.triggerKind = some TriggerKind.reprice)) := by
  have hresults : ∀ st : Store Id,
      (save env [ev] st).1 = (handleOrder env st ev).results := by
    intro st
    show (runEvents env [ev] st).results = _
    rw [runEvents_singleton]
  have hstores : ∀ st : Store Id,
      (save env [ev] st).2 =
        insertIgnore (handleOrder env st ev).store
          (handleOrder env st ev).newOrders := by
    intro st
    show insertIgnore (runEvents env [ev] st).store
      (runEvents env [ev] st).newOrders = _
    rw [runEvents_singleton]
  have hle : ∀ st : Store Id, (∀ i, rowCount st i ≤ 1) →
      ∀ i, rowCount (save env [ev] st).2 i ≤ 1 := by
    intro st hst i
    rw [hstores]
    apply insertIgnore_rowCount_le_one
    intro j
    rw [handleOrder_rowCount]
    exact hst j
  have h1 : ∀ i, rowCount (save env [ev] st0).2 i ≤ 1 := hle st0 hone
  refine ⟨h1, hle _ h1, ?_⟩
  intro res hres hkind
  rw [hresults] at hres
  obtain ⟨hfresh, ⟨o, ho, hoid⟩, pool, pl, hpd, hal, hpl, hcase⟩ :=
    handleOrder_newOrder_inv hres hkind
  have hcount1 : rowCount (save env [ev] st0).2 res.id = 1 := by
    rw [hstores, insertIgnore_rowCount]
    have hbuf : storeHas (handleOrder env st0 ev).newOrders res.id = true :=
      (storeHas_iff _ _).mpr ⟨o, ho, hoid⟩
    have hc : rowCount (handleOrder env st0 ev).store res.id = 0 := by
      rw [handleOrder_rowCount]
      exact (rowCount_eq_zero_iff st0 res.id).mpr hfresh
    simp [hc, hbuf]
  have hhas1 : storeHas (save env [ev] st0).2 res.id = true := by
    cases hsh : storeHas (save env [ev] st0).2 res.id with
    | true => rfl
    | false =>
        have := (rowCount_eq_zero_iff _ _).mpr hsh
        omega
  have hcount2 : rowCount (save env [ev] (save env [ev] st0).2).2 res.id = 1 := by
    rw [hstores, insertIgnore_rowCount]
    have hc2 : rowCount (handleOrder env (save env [ev] st0).2 ev).store res.id = 1 := by
      rw [handleOrder_rowCount]
      exact hcount1
    simp [hc2]
  refine ⟨hcount1, hcount2, ?_, ?_⟩
  · obtain ⟨res', hres', hid', hkind'⟩ :=
      handleOrder_reprice_present hpd hal hpl hcase hhas1
    refine ⟨res', ?_, hid', hkind'⟩
    rw [hresults]
    exact hres'
  · intro res' hres' hid'
    rw [hresults] at hres'
    rcases (handleOrder_results_tags res' hres').2.2 with hnew | hrep
    · obtain ⟨hfresh2, -, -⟩ := handleOrder_newOrder_inv hres' hnew
      rw [hid', hhas1] at hfresh2
      cases hfresh2
    · exact hrep

/-- Witness for C1: in the demo environment, the first run of an event on the
empty store records a `new-order` buy result; the theorem then yields the
single-row and reprice-on-rerun facts for it. -/
theorem reconcile_idempotent_witness :
    rowCount (save demoEnv [evA] []).2
        (getOrderId tupleKeccak allowedPool Side.buy none) = 1 ∧
    rowCount (save demoEnv [evA] (save demoEnv [evA] []).2).2
        (getOrderId tupleKeccak allowedPool Side.buy none) = 1 ∧
    (∃ res' ∈ (save demoEnv [evA] (save demoEnv [evA] []).2).1,
      res'.id = getOrderId tupleKeccak allowedPool Side.buy none ∧
      res'.triggerKind = some TriggerKind.reprice) := by
  have h := (reconcile_idempotent demoEnv evA []
      (fun i => by simp [rowCount])).2.2
    ⟨getOrderId tupleKeccak allowedPool Side.buy none, "0xtxA", "success",
      some TriggerKind.newOrder⟩
    (by decide) rfl
  exact ⟨h.1, h.2.1, h.2.2.1⟩

/-- **C5.** Every DerivedOrder produced by a reconciliation pass satisfies the
normalized-value invariant: buy-side orders (created or repriced by the buy
leg) have `normalizedValue ≤ value`, sell-side orders (created or repriced by
the sell leg) have `value ≤ normalizedValue`. -/
theorem normalized_value_bounds {Id : Type} [DecidableEq Id] (env : Env Id)
    (pool : Pool) (ev : OrderParams) (priceList : List PoolPrice)
    (st : Store Id) (fb : Nat) (fbd : List FeeEntry) :
    (∀ o ∈ (buyLeg env pool ev priceList st fb fbd).newOrders,
      o.side = "buy" ∧ o.normalized_value ≤ (o.value : Int)) ∧
    (∀ o ∈ (sellLeg env pool ev priceList st fb fbd).newOrders,
      o.side = "sell" ∧ (o.value : Int) ≤ o.normalized_value) ∧
    (∀ q0 qs v, priceList = q0 :: qs → q0.sell = some v →
      ∀ r ∈ (buyLeg env pool ev priceList st fb fbd).store,
        r ∈ st ∨ r.normalized_value ≤ (r.value : Int)) ∧
    (∀ r ∈ (sellLeg env pool ev priceList st fb fbd).store,
      r ∈ st ∨ (r.value : Int) ≤ r.normalized_value) := by
  refine ⟨?_, ?_, ?_, ?_⟩
  · intro o ho
    unfold buyLeg at ho
    dsimp only at ho
    repeat' split at ho
    all_goals simp only [List.mem_singleton, List.not_mem_nil] at ho
    all_goals subst ho
    all_goals exact ⟨rfl, by dsimp only; omega⟩
  · intro o ho
    cases priceList with
    | nil => simp [sellLeg] at ho
    | cons q0 qs =>
      cases hbuy : q0.buy with
      | none => simp [sellLeg, hbuy] at ho
      | some v =>
        cases hroy : env.royalties ("contract:" ++ pool.nft) with
        | none => simp [sellLeg, hbuy, hroy] at ho
        | some drs =>
          cases hp : (q0 :: qs).filterMap (fun q => q.raw.buy) with
          | nil => simp [sellLeg, hbuy, hroy, hp] at ho
          | cons p ps =>
              obtain ⟨hside, -, hv, hnv, -⟩ := (sellLeg_payload hbuy hroy hp).1 o ho
              refine ⟨hside, ?_⟩
              rw [hv, hnv]
              omega
  · intro q0 qs v hq hs r hr
    subst hq
    cases hroy : env.royalties ("contract:" ++ pool.nft) with
    | none => left; simpa [buyLeg, hs, hroy] using hr
    | some drs =>
      cases hp : (q0 :: qs).filterMap (fun q => q.raw.sell) with
      | nil => left; simpa [buyLeg, hs, hroy, hp] using hr
      | cons p ps =>
          rcases (buyLeg_payload hs hroy hp).2 r hr with hmem | ⟨-, hv, hnv, -⟩
          · exact Or.inl hmem
          · right
            rw [hv, hnv]
            omega
  · intro r hr
    cases priceList with
    | nil =>
        left
        simpa [sellLeg] using hr
    | cons q0 qs =>
      cases hbuy : q0.buy with
      | none => left; simpa [sellLeg, hbuy] using hr
      | some v =>
        cases hroy : env.royalties ("contract:" ++ pool.nft) with
        | none => left; simpa [sellLeg, hbuy, hroy] using hr
        | some drs =>
          cases hp : (q0 :: qs).filterMap (fun q => q.raw.buy) with
          | nil => left; simpa [sellLeg, hbuy, hroy, hp] using hr
          | cons p ps =>
              rcases (sellLeg_payload hbuy hroy hp).2 r hr with hmem | ⟨-, hv, hnv, -⟩
              · exact Or.inl hmem
              · right
                rw [hv, hnv]
                omega

/-- The buy order the demo environment derives from a one-quote ladder. -/
def demoBuyOrder : DbOrder TupleId :=
  ⟨getOrderId tupleKeccak allowedPool Side.buy none, "nftx", "buy", "fillable",
   "approved", "ts:contract", defaultSchemaHash, allowedPool, AddressZero,
   100, 100, "0xweth", 1, 100, none, some 1, "0xc0ffee", 50,
   [⟨"marketplace", allowedPool, 50⟩], [100], [], [], 100⟩

/-- Witness for C5 on the demo environment's buy order. -/
theorem normalized_value_bounds_witness :
    demoBuyOrder ∈ (buyLeg demoEnv demoPool evA [demoQuote]
        ([] : Store TupleId) 0 []).newOrders ∧
    demoBuyOrder.side = "buy" ∧
    demoBuyOrder.normalized_value ≤ (demoBuyOrder.value : Int) := by
  have hmem : demoBuyOrder ∈ (buyLeg demoEnv demoPool evA [demoQuote]
      ([] : Store TupleId) 0 []).newOrders := by decide
  exact ⟨hmem, (normalized_value_bounds demoEnv demoPool evA [demoQuote] [] 0 []).1
    demoBuyOrder hmem⟩

/-- **C6.** When the first ladder quote carries a sell-direction price (both
the slippage-adjusted quote and the raw price) and no buy order exists yet,
the buy leg creates exactly one order: its price is the first sell-direction
raw price in ladder order, its quantityRemaining is the number of ladder
entries carrying a sell-direction raw price, and a `new-order` result is
recorded. -/
theorem new_buy_order_price_qty {Id : Type} [DecidableEq Id] (env : Env Id)
    (pool : Pool) (ev : OrderParams) (q0 : PoolPrice) (qs : List PoolPrice)
    (st : Store Id) (fb : Nat) (fbd : List FeeEntry) (v p1 : Nat)
    (drs : List Royalty) (tsid : String)
    (hs : q0.sell = some v)
    (hraw : q0.raw.sell = some p1)
    (hroy : env.royalties ("contract:" ++ pool.nft) = some drs)
    (hh : storeHas st (getOrderId env.keccak ev.pool Side.buy none) = false)
    (hts : env.contractWideTokenSet ("contract:" ++ pool.nft) = some tsid) :
    ((buyLeg env pool ev (q0 :: qs) st fb fbd).newOrders.map
      (fun o => (o.price, o.quantity_remaining))) =
      [(p1, ((q0 :: qs).filterMap (fun q => q.raw.sell)).length)] ∧
    (buyLeg env pool ev (q0 :: qs) st fb fbd).results =
      [⟨getOrderId env.keccak ev.pool Side.buy none, ev.txHash, "success",
        some TriggerKind.newOrder⟩] := by
  have hp : (q0 :: qs).filterMap (fun q => q.raw.sell) =
      p1 :: qs.filterMap (fun q => q.raw.sell) := by
    simp [List.filterMap_cons, hraw]
  constructor
  · simp [buyLeg, hs, hraw, hroy, hp, hh, hts]
  · simp [buyLeg, hs, hraw, hroy, hp, hh, hts]

/-- A ladder quote whose sell direction is priced at `n`. -/
def ladQuote (n : Nat) : PoolPrice :=
  ⟨some n, none, "0xweth", ⟨50, 70⟩, ⟨some n, none⟩⟩

/-- Witness for C6: a three-level ladder 10 < 11 < 12 yields one order with
price 10 and quantityRemaining 3. -/
theorem new_buy_order_price_qty_witness :
    ((buyLeg demoEnv demoPool evA (ladQuote 10 :: [ladQuote 11, ladQuote 12])
        ([] : Store TupleId) 0 []).newOrders.map
      (fun o => (o.price, o.quantity_remaining))) = [(10, 3)] ∧
    (buyLeg demoEnv demoPool evA (ladQuote 10 :: [ladQuote 11, ladQuote 12])
        ([] : Store TupleId) 0 []).results =
      [⟨getOrderId tupleKeccak allowedPool Side.buy none, "0xtxA", "success",
        some TriggerKind.newOrder⟩] := by
  exact new_buy_order_price_qty demoEnv demoPool evA (ladQuote 10)
    [ladQuote 11, ladQuote 12] [] 0 [] 10 10 [] "ts:contract"
    rfl rfl rfl rfl rfl

/-- **C7.** When the royalty registry's total default bps is at most the
built-in total (0), the royalty computation yields no missing royalties, and
every order the legs derive (created or repriced) has an empty
`missingRoyalties` list and `normalizedValue` exactly equal to `value`. -/
theorem no_royalty_gap {Id : Type} [DecidableEq Id] (env : Env Id)
    (pool : Pool) (ev : OrderParams) (priceList : List PoolPrice)
    (st : Store Id) (fb : Nat) (fbd : List FeeEntry) (drs : List Royalty)
    (hroy : env.royalties ("contract:" ++ pool.nft) = some drs)
    (htot : (drs.map (fun r => r.bps)).sum ≤ 0) :
    (∀ price, computeMissingRoyalties drs price = ([], 0)) ∧
    (∀ o ∈ (buyLeg env pool ev priceList st fb fbd).newOrders,
      o.missing_royalties = [] ∧ o.normalized_value = (o.value : Int)) ∧
    (∀ o ∈ (sellLeg env pool ev priceList st fb fbd).newOrders,
      o.missing_royalties = [] ∧ o.normalized_value = (o.value : Int)) ∧
    (∀ q0 qs v, priceList = q0 :: qs → q0.sell = some v →
      ∀ r ∈ (buyLeg env pool ev priceList st fb fbd).store,
        r ∈ st ∨ (r.missing_royalties = [] ∧ r.normalized_value = (r.value : Int))) ∧
    (∀ r ∈ (sellLeg env pool ev priceList st fb fbd).store,
      r ∈ st ∨ (r.missing_royalties = [] ∧ r.normalized_value = (r.value : Int))) := by
  have h0 : (drs.map (fun r => r.bps)).sum = 0 := Nat.le_zero.mp htot
  have hcmr : ∀ price, computeMissingRoyalties drs price = ([], 0) := by
    intro price
    simp [computeMissingRoyalties, h0]
  refine ⟨hcmr, ?_, ?_, ?_, ?_⟩
  · intro o ho
    cases priceList with
    | nil => simp [buyLeg] at ho
    | cons q0 qs =>
      cases hs : q0.sell with
      | none => simp [buyLeg, hs] at ho
      | some v =>
        cases hp : (q0 :: qs).filterMap (fun q => q.raw.sell) with
        | nil => simp [buyLeg, hs, hroy, hp] at ho
        | cons p ps =>
            obtain ⟨-, -, hv, hnv, hmr, -⟩ := (buyLeg_payload hs hroy hp).1 o ho
            rw [hmr, hnv, hv, hcmr p]
            simp
  · intro o ho
    cases priceList with
    | nil => simp [sellLeg] at ho
    | cons q0 qs =>
      cases hbuy : q0.buy with
      | none => simp [sellLeg, hbuy] at ho
      | some v =>
        cases hp : (q0 :: qs).filterMap (fun q => q.raw.buy) with
        | nil => simp [sellLeg, hbuy, hroy, hp] at ho
        | cons p ps =>
            obtain ⟨-, -, hv, hnv, hmr, -⟩ := (sellLeg_payload hbuy hroy hp).1 o ho
            rw [hmr, hnv, hv, hcmr p]
            simp
  · intro q0 qs v hq hs r hr
    subst hq
    cases hp : (q0 :: qs).filterMap (fun q => q.raw.sell) with
    | nil => left; simpa [buyLeg, hs, hroy, hp] using hr
    | cons p ps =>
        rcases (buyLeg_payload hs hroy hp).2 r hr with hmem | ⟨-, hv, hnv, hmr, -⟩
        · exact Or.inl hmem
        · right
          rw [hmr, hnv, hv, hcmr p]
          simp
  · intro r hr
    cases priceList with
    | nil => left; simpa [sellLeg] using hr
    | cons q0 qs =>
      cases hbuy : q0.buy with
      | none => left; simpa [sellLeg, hbuy] using hr
      | some v =>
        cases hp : (q0 :: qs).filterMap (fun q => q.raw.buy) with
        | nil => left; simpa [sellLeg, hbuy, hroy, hp] using hr
        | cons p ps =>
            rcases (sellLeg_payload hbuy hroy hp).2 r hr with hmem | ⟨-, hv, hnv, hmr, -⟩
            · exact Or.inl hmem
            · right
              rw [hmr, hnv, hv, hcmr p]
              simp

/-- Witness for C7 with an empty default royalty schedule. -/
theorem no_royalty_gap_witness :
    computeMissingRoyalties [] 5 = ([], 0) ∧
    demoBuyOrder.missing_royalties = [] ∧
    demoBuyOrder.normalized_value = (demoBuyOrder.value : Int) := by
  have h := no_royalty_gap demoEnv demoPool evA [demoQuote]
    ([] : Store TupleId) 0 [] [] rfl (by decide)
  exact ⟨h.1 5, h.2.1 demoBuyOrder (by decide)⟩

/-- A quote whose slippage-adjusted sell price (100) differs from its raw sell
price (110). -/
def slipQuote : PoolPrice :=
  ⟨some 100, none, "0xweth", ⟨50, 70⟩, ⟨some 110, none⟩⟩

/-- Demo environment with slippage between the raw and adjusted sell price and
a 10% default royalty to a single recipient. -/
def slipEnv : Env TupleId :=
  { demoEnv with
    poolPrice := fun _ _ => some slipQuote
    royalties := fun _ => some [⟨"0xroyal", 1000⟩] }

/-- The buy order `slipEnv` derives: the royalty amount 11 is computed from
the raw price 110, but the normalized value 89 is derived from the
slippage-adjusted value 100. -/
def slipOrder : DbOrder TupleId :=
  ⟨getOrderId tupleKeccak allowedPool Side.buy none, "nftx", "buy", "fillable",
   "approved", "ts:contract", defaultSchemaHash, allowedPool, AddressZero,
   110, 100, "0xweth", 10, 100, none, some 1, "0xc0ffee", 50,
   [⟨"marketplace", allowedPool, 50⟩], List.replicate 10 110, [],
   [⟨1000, 11, "0xroyal"⟩], 89⟩

/-- **C3 (counterexample).** The claim states `normalizedValue = basePrice -
amount` for buy orders, with `amount = floor(basePrice * diffBps / 10000)`.
On a ladder whose raw base price is 110 but whose slippage-adjusted value is
100, with a 1000-bps royalty gap, the code computes `amount = 11` from the
base price 110 and attributes it to the first valid recipient — but the
resulting normalized value is `100 - 11 = 89`, not `110 - 11 = 99`. -/
theorem royalty_topup_counterexample :
    (save slipEnv [evA] ([] : Store TupleId)).2 = [slipOrder] ∧
    slipOrder.price = 110 ∧
    slipOrder.missing_royalties = [⟨1000, 11, "0xroyal"⟩] ∧
    slipOrder.value = 100 ∧
    slipOrder.normalized_value = 89 ∧
    ¬slipOrder.normalized_value = (110 : Int) - 11 := by
  refine ⟨by decide, rfl, rfl, rfl, rfl, by decide⟩

/-- **C3 (amended).** When the default schedule's total bps exceeds the
built-in total (0) and a recipient with non-zero bps and non-null address
exists, the royalty top-up computes `amount = floor(basePrice * diffBps /
10000)` from the raw base price and attributes the whole diff to the first
valid recipient; the resulting order's `normalizedValue` is `value - amount`
for buy orders and `value + amount` for sell orders, where `value` is the
slippage-adjusted first-level quote price, which may differ from the raw base
price used for `amount`. -/
theorem royalty_topup_amended {Id : Type} [DecidableEq Id] (env : Env Id)
    (pool : Pool) (ev : OrderParams) (q0 : PoolPrice) (qs : List PoolPrice)
    (st : Store Id) (fb : Nat) (fbd : List FeeEntry) (drs : List Royalty)
    (vr : Royalty) (vrest : List Royalty)
    (hroy : env.royalties ("contract:" ++ pool.nft) = some drs)
    (htot : 0 < (drs.map (fun r => r.bps)).sum)
    (hvr : drs.filter (fun r => r.bps != 0 && r.recipient != AddressZero) =
      vr :: vrest) :
    (∀ pr : Nat, computeMissingRoyalties drs pr =
      ([⟨(drs.map (fun r => r.bps)).sum,
         pr * (drs.map (fun r => r.bps)).sum / 10000, vr.recipient⟩],
       pr * (drs.map (fun r => r.bps)).sum / 10000)) ∧
    (∀ v p ps, q0.sell = some v →
      (q0 :: qs).filterMap (fun q => q.raw.sell) = p :: ps →
      ∀ o ∈ (buyLeg env pool ev (q0 :: qs) st fb fbd).newOrders,
        o.price = p ∧ o.value = v ∧
        o.missing_royalties = [⟨(drs.map (fun r => r.bps)).sum,
          p * (drs.map (fun r => r.bps)).sum / 10000, vr.recipient⟩] ∧
        o.normalized_value =
          (v : Int) - ((p * (drs.map (fun r => r.bps)).sum / 10000 : Nat) : Int)) ∧
    (∀ v p ps, q0.buy = some v →
      (q0 :: qs).filterMap (fun q => q.raw.buy) = p :: ps →
      ∀ o ∈ (sellLeg env pool ev (q0 :: qs) st fb fbd).newOrders,
        o.price = p ∧ o.value = v ∧
        o.missing_royalties = [⟨(drs.map (fun r => r.bps)).sum,
          p * (drs.map (fun r => r.bps)).sum / 10000, vr.recipient⟩] ∧
        o.normalized_value =
          (v : Int) + ((p * (drs.map (fun r => r.bps)).sum / 10000 : Nat) : Int)) := by
  have hch : ∀ pr : Nat, computeMissingRoyalties drs pr =
      ([⟨(drs.map (fun r => r.bps)).sum,
         pr * (drs.map (fun r => r.bps)).sum / 10000, vr.recipient⟩],
       pr * (drs.map (fun r => r.bps)).sum / 10000) := by
    intro pr
    simp only [computeMissingRoyalties]
    rw [if_pos htot, hvr]
    simp
  refine ⟨hch, ?_, ?_⟩
  · intro v p ps hs hp o ho
    obtain ⟨-, hpr, hv, hnv, hmr, -⟩ := (buyLeg_payload hs hroy hp).1 o ho
    rw [hpr, hv, hnv, hmr, hch p]
    exact ⟨rfl, rfl, rfl, rfl⟩
  · intro v p ps hbuy hp o ho
    obtain ⟨-, hpr, hv, hnv, hmr, -⟩ := (sellLeg_payload hbuy hroy hp).1 o ho
    rw [hpr, hv, hnv, hmr, hch p]
    exact ⟨rfl, rfl, rfl, rfl⟩

/-- Witness for the amended C3: a 1000-bps schedule over base price 110 gives
amount 11 attributed to the single valid recipient. -/
theorem royalty_topup_amended_witness :
    computeMissingRoyalties [⟨"0xroyal", 1000⟩] 110 = ([⟨1000, 11, "0xroyal"⟩], 11) := by
  have h := (royalty_topup_amended slipEnv demoPool evA slipQuote []
    ([] : Store TupleId) 0 [] [⟨"0xroyal", 1000⟩] ⟨"0xroyal", 1000⟩ []
    rfl (by decide) rfl).1 110
  exact h

/-- A quote with no price in either direction. -/
def noQuote : PoolPrice := ⟨none, none, "0xweth", ⟨50, 70⟩, ⟨none, none⟩⟩

/-- Demo environment whose ladder has no sell-direction price. -/
def noSellEnv : Env TupleId :=
  { demoEnv with poolPrice := fun _ _ => some noQuote }

/-- **C4 (counterexample).** The claim states that when the ladder's first
quote has no sell-direction price and no buy order exists for the pool,
nothing happens: no order is created and no result is recorded.  On the empty
store the code indeed creates no order (the no-balance `UPDATE` matches no
row), but it still unconditionally records a `reprice` result for the buy
identity. -/
theorem missing_sell_quote_counterexample :
    (save noSellEnv [evA] ([] : Store TupleId)).1 =
      [⟨getOrderId tupleKeccak allowedPool Side.buy none, "0xtxA", "success",
        some TriggerKind.reprice⟩] ∧
    (save noSellEnv [evA] ([] : Store TupleId)).2 = [] := by
  refine ⟨by decide, by decide⟩

/-- **C4 (amended).** When the ladder's first quote has no sell-direction
price, the buy leg applies the no-balance update — setting any existing buy
order of the pool to `no-balance` with expiration at the triggering
transaction time — creates no order, and unconditionally records a `reprice`
result; when no buy order exists the store is left unchanged (the update
matches no row) but the result is still recorded. -/
theorem missing_sell_quote_amended {Id : Type} [DecidableEq Id] (env : Env Id)
    (pool : Pool) (ev : OrderParams) (q0 : PoolPrice) (qs : List PoolPrice)
    (st : Store Id) (fb : Nat) (fbd : List FeeEntry)
    (hs : q0.sell = none) :
    (buyLeg env pool ev (q0 :: qs) st fb fbd).results =
      [⟨getOrderId env.keccak ev.pool Side.buy none, ev.txHash, "success",
        some TriggerKind.reprice⟩] ∧
    (buyLeg env pool ev (q0 :: qs) st fb fbd).newOrders = [] ∧
    (buyLeg env pool ev (q0 :: qs) st fb fbd).store =
      updateOrder st (getOrderId env.keccak ev.pool Side.buy none)
        (fun r => { r with
          fillability_status := "no-balance"
          expiration := some ev.txTimestamp }) ∧
    (storeHas st (getOrderId env.keccak ev.pool Side.buy none) = false →
      (buyLeg env pool ev (q0 :: qs) st fb fbd).store = st) := by
  refine ⟨by simp [buyLeg, hs], by simp [buyLeg, hs], by simp [buyLeg, hs], ?_⟩
  intro hmiss
  have hst : (buyLeg env pool ev (q0 :: qs) st fb fbd).store =
      updateOrder st (getOrderId env.keccak ev.pool Side.buy none)
        (fun r => { r with
          fillability_status := "no-balance"
          expiration := some ev.txTimestamp }) := by
    simp [buyLeg, hs]
  rw [hst]
  exact updateOrder_absent st _ _ hmiss

/-- Witness for the amended C4 on the empty store. -/
theorem missing_sell_quote_amended_witness :
    (buyLeg noSellEnv demoPool evA [noQuote] ([] : Store TupleId) 0 []).results =
      [⟨getOrderId tupleKeccak allowedPool Side.buy none, "0xtxA", "success",
        some TriggerKind.reprice⟩] ∧
    (buyLeg noSellEnv demoPool evA [noQuote] ([] : Store TupleId) 0 []).store = [] := by
  have h := missing_sell_quote_amended noSellEnv demoPool evA noQuote [] [] 0 [] rfl
  exact ⟨h.1, h.2.2.2 rfl⟩

/-- After the buy leg has seen a priced sell-direction quote, the event-scoped
fee state holds the sell-direction bps and the pushed buy-leg entry, whatever
happened later in the leg. -/
theorem buyLeg_fee_state (env : Env Id) (pool : Pool) (ev : OrderParams)
    (q0 : PoolPrice) (qs : List PoolPrice) (st : Store Id) (fb : Nat)
    (fbd : List FeeEntry) (v : Nat) (hs : q0.sell = some v) :
    (buyLeg env pool ev (q0 :: qs) st fb fbd).feeBps = q0.bps.sell ∧
    (buyLeg env pool ev (q0 :: qs) st fb fbd).feeBreakdown =
      fbd ++ [⟨"marketplace", pool.address, q0.bps.sell⟩] := by
  constructor
  · unfold buyLeg
    dsimp only
    simp only [hs]
    repeat' split
    all_goals rfl
  · unfold buyLeg
    dsimp only
    simp only [hs]
    repeat' split
    all_goals rfl

/-- Every order the buy leg buffers has side `buy`. -/
theorem buyLeg_newOrders_side (env : Env Id) (pool : Pool) (ev : OrderParams)
    (priceList : List PoolPrice) (st : Store Id) (fb : Nat)
    (fbd : List FeeEntry) :
    ∀ o ∈ (buyLeg env pool ev priceList st fb fbd).newOrders,
      o.side = "buy" := by
  intro o ho
  unfold buyLeg at ho
  dsimp only at ho
  repeat' split at ho
  all_goals simp only [List.mem_singleton, List.not_mem_nil] at ho
  all_goals subst ho
  all_goals rfl

/-- A quote priced in both directions, with distinct sell/buy fee bps. -/
def bothQuote : PoolPrice :=
  ⟨some 100, some 80, "0xweth", ⟨50, 70⟩, ⟨some 100, some 80⟩⟩

/-- Demo environment with both directions priced and one held item. -/
def feeEnv : Env TupleId :=
  { demoEnv with
    poolPrice := fun _ _ => some bothQuote
    nftsHeld := fun _ _ => ["7"] }

def cexBuyOrder : DbOrder TupleId :=
  ⟨getOrderId tupleKeccak allowedPool Side.buy none, "nftx", "buy", "fillable",
   "approved", "ts:contract", defaultSchemaHash, allowedPool, AddressZero,
   100, 100, "0xweth", 10, 100, none, some 1, "0xc0ffee", 50,
   [⟨"marketplace", allowedPool, 50⟩], List.replicate 10 100, [], [], 100⟩

def cexSellOrder : DbOrder TupleId :=
  ⟨getOrderId tupleKeccak allowedPool Side.sell (some "7"), "nftx", "sell",
   "fillable", "approved", "ts:0xc0ffee:7", defaultSchemaHash, allowedPool,
   AddressZero, 80, 80, "0xweth", 1, 100, none, some 1, "0xc0ffee", 70,
   [⟨"marketplace", allowedPool, 50⟩, ⟨"marketplace", allowedPool, 70⟩],
   List.replicate 10 80, ["7"], [], 80⟩

/-- **C10 (counterexample).** With both legs priced (sell-direction bps 50,
buy-direction bps 70), the persisted sell order does carry both marketplace
entries in its `feeBreakdown`, but its `feeBps` is 70 — the buy-direction bps
the sell leg assigned — not the sell-direction bps 50, so the claim's
"feeBps equal to the sell-direction bps alone" fails. -/
theorem fee_state_counterexample :
    (save feeEnv [evA] ([] : Store TupleId)).2 = [cexBuyOrder, cexSellOrder] ∧
    cexSellOrder.fee_breakdown =
      [⟨"marketplace", allowedPool, 50⟩, ⟨"marketplace", allowedPool, 70⟩] ∧
    cexSellOrder.fee_bps = 70 ∧
    bothQuote.bps.sell = 50 ∧
    ¬cexSellOrder.fee_bps = bothQuote.bps.sell := by
  refine ⟨by decide, rfl, rfl, rfl, by decide⟩

/-- **C10 (amended).** Within one pool event, `feeBps` / `feeBreakdown` are a
single mutable pair shared by both legs: when the buy leg runs with a priced
sell-direction quote and the sell leg runs with a priced buy-direction quote,
every sell order persisted in the event (created, or repriced by the sell leg
— the rows in the complementary bucket are those the sell leg did not touch)
carries a `feeBreakdown` holding the buy-leg entry followed by the sell-leg
entry, and a `feeBps` equal to the buy-direction bps the sell leg assigned,
alone. -/
theorem fee_state_shared_amended {Id : Type} [DecidableEq Id] (env : Env Id)
    (pool : Pool) (ev : OrderParams) (q0 : PoolPrice) (qs : List PoolPrice)
    (st : Store Id) (v w : Nat)
    (hs : q0.sell = some v)
    (hbuy : q0.buy = some w) :
    (∀ o ∈ (handleLegs env pool ev (q0 :: qs) st).newOrders, o.side = "sell" →
      o.fee_bps = q0.bps.buy ∧
      o.fee_breakdown = [⟨"marketplace", pool.address, q0.bps.sell⟩,
        ⟨"marketplace", pool.address, q0.bps.buy⟩]) ∧
    (∀ r ∈ (handleLegs env pool ev (q0 :: qs) st).store,
      r ∈ (buyLeg env pool ev (q0 :: qs) st 0 []).store ∨
      (r.fee_bps = q0.bps.buy ∧
       r.fee_breakdown = [⟨"marketplace", pool.address, q0.bps.sell⟩,
         ⟨"marketplace", pool.address, q0.bps.buy⟩])) := by
  have hb := buyLeg_fee_state env pool ev q0 qs st 0 [] v hs
  constructor
  · intro o ho hside
    unfold handleLegs at ho
    dsimp only at ho
    rcases List.mem_append.mp ho with h1 | h2
    · have hbs := buyLeg_newOrders_side env pool ev (q0 :: qs) st 0 [] o h1
      rw [hbs] at hside
      exact absurd hside (by decide)
    · rw [hb.1, hb.2] at h2
      cases hroy : env.royalties ("contract:" ++ pool.nft) with
      | none => simp [sellLeg, hbuy, hroy] at h2
      | some drs =>
        cases hp : (q0 :: qs).filterMap (fun q => q.raw.buy) with
        | nil => simp [sellLeg, hbuy, hroy, hp] at h2
        | cons p ps =>
            obtain ⟨-, -, -, -, -, hfb, hfbd, -⟩ :=
              (sellLeg_payload hbuy hroy hp).1 o h2
            refine ⟨hfb, ?_⟩
            rw [hfbd]
            simp
  · intro r hr
    unfold handleLegs at hr
    dsimp only at hr
    rw [hb.1, hb.2] at hr
    cases hroy : env.royalties ("contract:" ++ pool.nft) with
    | none => left; simpa [sellLeg, hbuy, hroy] using hr
    | some drs =>
      cases hp : (q0 :: qs).filterMap (fun q => q.raw.buy) with
      | nil => left; simpa [sellLeg, hbuy, hroy, hp] using hr
      | cons p ps =>
          rcases (sellLeg_payload hbuy hroy hp).2 r hr with hmem | ⟨-, -, -, -, hfb, hfbd, -⟩
          · exact Or.inl hmem
          · right
            refine ⟨hfb, ?_⟩
            rw [hfbd]
            simp

/-- The sell order `feeEnv` derives from a single-quote ladder. -/
def cexSellOrderW : DbOrder TupleId :=
  ⟨getOrderId tupleKeccak allowedPool Side.sell (some "7"), "nftx", "sell",
   "fillable", "approved", "ts:0xc0ffee:7", defaultSchemaHash, allowedPool,
   AddressZero, 80, 80, "0xweth", 1, 100, none, some 1, "0xc0ffee", 70,
   [⟨"marketplace", allowedPool, 50⟩, ⟨"marketplace", allowedPool, 70⟩],
   [80], ["7"], [], 80⟩

/-- Witness for the amended C10. -/
theorem fee_state_shared_amended_witness :
    cexSellOrderW ∈ (handleLegs feeEnv demoPool evA [bothQuote]
        ([] : Store TupleId)).newOrders ∧
    cexSellOrderW.fee_bps = bothQuote.bps.buy ∧
    cexSellOrderW.fee_breakdown =
      [⟨"marketplace", allowedPool, 50⟩, ⟨"marketplace", allowedPool, 70⟩] := by
  have hmem : cexSellOrderW ∈ (handleLegs feeEnv demoPool evA [bothQuote]
      ([] : Store TupleId)).newOrders := by decide
  have h := (fee_state_shared_amended feeEnv demoPool evA bothQuote [] [] 100 80
    rfl rfl).1 cexSellOrderW hmem rfl
  exact ⟨hmem, h.1, h.2⟩

/-! ## Failure-containment helpers -/

/-- A sell-leg item whose token-set registration fails (and which has no
existing row, so the failure is actually reached) is observationally absent:
the item loop behaves exactly as if the item were not in the inventory. -/
theorem sellItems_drop_failed_item {env : Env Id} {pool : Pool}
    {ev : OrderParams} {price value : Nat} {prices : List Nat}
    {currency : String} {mrs : List MissingRoyalty} {nv : Int} {fb : Nat}
    {fbd : List FeeEntry} {t : String} {ts2 : List String}
    (hfail : env.singleTokenTokenSet pool.nft t = none) :
    ∀ (ts1 : List String) (st : Store Id),
      storeHas st (getOrderId env.keccak ev.pool Side.sell (some t)) = false →
      sellItems env pool ev price value prices currency mrs nv fb fbd
        (ts1 ++ t :: ts2) st =
      sellItems env pool ev price value prices currency mrs nv fb fbd
        (ts1 ++ ts2) st := by
  intro ts1
  induction ts1 with
  | nil =>
      intro st hmiss
      have hstep : sellItem env pool ev price value prices currency mrs nv
          fb fbd st t = ([], [], st) := by
        simp [sellItem, hmiss, hfail]
      simp only [List.nil_append, sellItems, hstep]
  | cons u ts1 ih =>
      intro st hmiss
      simp only [List.cons_append, sellItems, List.append_eq]
      have h' : storeHas
          (sellItem env pool ev price value prices currency mrs nv fb fbd st u).2.2
          (getOrderId env.keccak ev.pool Side.sell (some t)) = false := by
        rw [sellItem_storeHas]
        exact hmiss
      rw [ih _ h']

/-- The buy leg's store effect and fee state do not depend on the
contract-wide token-set registry: a token-set failure in the buy leg leaves
everything the sell leg consumes unchanged. -/
theorem buyLeg_tokenSet_indep (A : String → Option String) (env : Env Id)
    (pool : Pool) (ev : OrderParams) (priceList : List PoolPrice)
    (st : Store Id) (fb : Nat) (fbd : List FeeEntry) :
    (buyLeg { env with contractWideTokenSet := A } pool ev priceList st fb fbd).store =
      (buyLeg env pool ev priceList st fb fbd).store ∧
    (buyLeg { env with contractWideTokenSet := A } pool ev priceList st fb fbd).feeBps =
      (buyLeg env pool ev priceList st fb fbd).feeBps ∧
    (buyLeg { env with contractWideTokenSet := A } pool ev priceList st fb fbd).feeBreakdown =
      (buyLeg env pool ev priceList st fb fbd).feeBreakdown := by
  cases priceList with
  | nil => exact ⟨rfl, rfl, rfl⟩
  | cons q0 qs =>
    cases hs : q0.sell with
    | none => refine ⟨?_, ?_, ?_⟩ <;> simp [buyLeg, hs]
    | some v =>
      cases hroy : env.royalties ("contract:" ++ pool.nft) with
      | none => refine ⟨?_, ?_, ?_⟩ <;> simp [buyLeg, hs, hroy]
      | some drs =>
        cases hp : (q0 :: qs).filterMap (fun q => q.raw.sell) with
        | nil => refine ⟨?_, ?_, ?_⟩ <;> simp [buyLeg, hs, hroy, hp]
        | cons p ps =>
          cases hh : storeHas st (getOrderId env.keccak ev.pool Side.buy none) with
          | true => refine ⟨?_, ?_, ?_⟩ <;> simp [buyLeg, hs, hroy, hp, hh]
          | false =>
            cases hA : A ("contract:" ++ pool.nft) with
            | none =>
                cases hts : env.contractWideTokenSet ("contract:" ++ pool.nft) with
                | none => refine ⟨?_, ?_, ?_⟩ <;>
                    simp [buyLeg, hs, hroy, hp, hh, hA, hts]
                | some tsid => refine ⟨?_, ?_, ?_⟩ <;>
                    simp [buyLeg, hs, hroy, hp, hh, hA, hts]
            | some tsid' =>
                cases hts : env.contractWideTokenSet ("contract:" ++ pool.nft) with
                | none => refine ⟨?_, ?_, ?_⟩ <;>
                    simp [buyLeg, hs, hroy, hp, hh, hA, hts]
                | some tsid => refine ⟨?_, ?_, ?_⟩ <;>
                    simp [buyLeg, hs, hroy, hp, hh, hA, hts]

/-- A sell-leg item never consults the contract-wide token-set registry. -/
theorem sellItem_tokenSet_indep (A : String → Option String) (env : Env Id)
    (pool : Pool) (ev : OrderParams) (price value : Nat) (prices : List Nat)
    (currency : String) (mrs : List MissingRoyalty) (nv : Int) (fb : Nat)
    (fbd : List FeeEntry) (st : Store Id) (t : String) :
    sellItem { env with contractWideTokenSet := A } pool ev price value prices
        currency mrs nv fb fbd st t =
      sellItem env pool ev price value prices currency mrs nv fb fbd st t := rfl

theorem sellItems_tokenSet_indep (A : String → Option String) (env : Env Id)
    (pool : Pool) (ev : OrderParams) (price value : Nat) (prices : List Nat)
    (currency : String) (mrs : List MissingRoyalty) (nv : Int) (fb : Nat)
    (fbd : List FeeEntry) :
    ∀ (ts : List String) (st : Store Id),
      sellItems { env with contractWideTokenSet := A } pool ev price value
          prices currency mrs nv fb fbd ts st =
        sellItems env pool ev price value prices currency mrs nv fb fbd ts st := by
  intro ts
  induction ts with
  | nil => intro st; rfl
  | cons u ts ih =>
      intro st
      simp only [sellItems, sellItem_tokenSet_indep, ih]

/-- The sell leg never consults the contract-wide token-set registry. -/
theorem sellLeg_tokenSet_indep (A : String → Option String) (env : Env Id)
    (pool : Pool) (ev : OrderParams) (priceList : List PoolPrice)
    (st : Store Id) (fb : Nat) (fbd : List FeeEntry) :
    sellLeg { env with contractWideTokenSet := A } pool ev priceList st fb fbd =
      sellLeg env pool ev priceList st fb fbd := by
  cases priceList with
  | nil => rfl
  | cons q0 qs =>
    cases hbuy : q0.buy with
    | none => simp [sellLeg, hbuy]
    | some v =>
      cases hroy : env.royalties ("contract:" ++ pool.nft) with
      | none => simp [sellLeg, hbuy, hroy]
      | some drs =>
        cases hp : (q0 :: qs).filterMap (fun q => q.raw.buy) with
        | nil => simp [sellLeg, hbuy, hroy, hp]
        | cons p ps =>
            simp only [sellLeg, hbuy, hroy, hp]
            rw [sellItems_tokenSet_indep]

/-- The sell leg's contribution to one event: the sell leg applied to the
store and fee state the buy leg leaves behind.  `handleLegs` is, by
definition, the buy leg's outputs followed by exactly this. -/
def sellLegOutcome (env : Env Id) (pool : Pool) (ev : OrderParams)
    (pl : List PoolPrice) (st : Store Id) : LegOut Id :=
  sellLeg env pool ev pl (buyLeg env pool ev pl st 0 []).store
    (buyLeg env pool ev pl st 0 []).feeBps
    (buyLeg env pool ev pl st 0 []).feeBreakdown

/-- An event is exactly its buy-leg prefix followed by the sell leg's
outcome. -/
theorem handleLegs_decomp (env : Env Id) (pool : Pool) (ev : OrderParams)
    (pl : List PoolPrice) (st : Store Id) :
    handleLegs env pool ev pl st =
      ⟨(buyLeg env pool ev pl st 0 []).results ++
          (sellLegOutcome env pool ev pl st).results,
        (buyLeg env pool ev pl st 0 []).newOrders ++
          (sellLegOutcome env pool ev pl st).newOrders,
        (sellLegOutcome env pool ev pl st).store⟩ := rfl

/-- The sell leg's outcome — results, buffered orders, store, fee state — is
unchanged by any change to the contract-wide token-set registry, the only
collaborator exclusive to the buy leg: the buy leg's store and fee effects do
not depend on it, and the sell leg never consults it. -/
theorem sellLegOutcome_tokenSet_indep (A : String → Option String)
    (env : Env Id) (pool : Pool) (ev : OrderParams) (pl : List PoolPrice)
    (st : Store Id) :
    sellLegOutcome { env with contractWideTokenSet := A } pool ev pl st =
      sellLegOutcome env pool ev pl st := by
  unfold sellLegOutcome
  obtain ⟨hst, hfb, hfbd⟩ := buyLeg_tokenSet_indep A env pool ev pl st 0 []
  rw [hst, hfb, hfbd, sellLeg_tokenSet_indep]

/-- A buy-leg failure of the contract-wide token-set collaborator never
changes the sell leg's outcomes or the event's store effect: the two runs
share the sell-leg suffix of results and buffered orders, and their stores
agree. -/
theorem handleOrder_tokenSet_indep (A : String → Option String) (env : Env Id)
    (st : Store Id) (ev : OrderParams) :
    (handleOrder { env with contractWideTokenSet := A } st ev).store =
      (handleOrder env st ev).store ∧
    ∃ bR bR' sR bO bO' sO,
      (handleOrder env st ev).results = bR ++ sR ∧
      (handleOrder { env with contractWideTokenSet := A } st ev).results =
        bR' ++ sR ∧
      (handleOrder env st ev).newOrders = bO ++ sO ∧
      (handleOrder { env with contractWideTokenSet := A } st ev).newOrders =
        bO' ++ sO := by
  cases hpd : env.poolDetails ev.pool with
  | none =>
      have hpd' : Env.poolDetails { env with contractWideTokenSet := A }
          ev.pool = none := hpd
      rw [handleOrder_details_missing hpd, handleOrder_details_missing hpd']
      exact ⟨rfl, [], [], [], [], [], [], rfl, rfl, rfl, rfl⟩
  | some pool =>
    by_cases hal : ev.pool = allowedPool
    · cases hpl : (List.range 10).mapM (fun i => env.poolPrice ev.pool (i + 1)) with
      | none =>
          have hpd' : Env.poolDetails { env with contractWideTokenSet := A }
              ev.pool = some pool := hpd
          have hpl' : (List.range 10).mapM (fun i =>
              Env.poolPrice { env with contractWideTokenSet := A } ev.pool (i + 1)) =
              none := hpl
          rw [handleOrder_oracle_missing hpd hal hpl,
            handleOrder_oracle_missing hpd' hal hpl']
          exact ⟨rfl, [], [], [], [], [], [], rfl, rfl, rfl, rfl⟩
      | some pl =>
          have hpd' : Env.poolDetails { env with contractWideTokenSet := A }
              ev.pool = some pool := hpd
          have hpl' : (List.range 10).mapM (fun i =>
              Env.poolPrice { env with contractWideTokenSet := A } ev.pool (i + 1)) =
              some pl := hpl
          rw [handleOrder_eq_legs hpd hal hpl, handleOrder_eq_legs hpd' hal hpl']
          obtain ⟨hst, hfb, hfbd⟩ := buyLeg_tokenSet_indep A env pool ev pl st 0 []
          have hsell : sellLeg { env with contractWideTokenSet := A } pool ev pl
              (buyLeg { env with contractWideTokenSet := A } pool ev pl st 0 []).store
              (buyLeg { env with contractWideTokenSet := A } pool ev pl st 0 []).feeBps
              (buyLeg { env with contractWideTokenSet := A } pool ev pl st 0 []).feeBreakdown =
            sellLeg env pool ev pl (buyLeg env pool ev pl st 0 []).store
              (buyLeg env pool ev pl st 0 []).feeBps
              (buyLeg env pool ev pl st 0 []).feeBreakdown := by
            rw [hst, hfb, hfbd, sellLeg_tokenSet_indep]
          unfold handleLegs
          dsimp only
          rw [hsell]
          exact ⟨rfl,
            (buyLeg env pool ev pl st 0 []).results,
            (buyLeg { env with contractWideTokenSet := A } pool ev pl st 0 []).results,
            (sellLeg env pool ev pl (buyLeg env pool ev pl st 0 []).store
              (buyLeg env pool ev pl st 0 []).feeBps
              (buyLeg env pool ev pl st 0 []).feeBreakdown).results,
            (buyLeg env pool ev pl st 0 []).newOrders,
            (buyLeg { env with contractWideTokenSet := A } pool ev pl st 0 []).newOrders,
            (sellLeg env pool ev pl (buyLeg env pool ev pl st 0 []).store
              (buyLeg env pool ev pl st 0 []).feeBps
              (buyLeg env pool ev pl st 0 []).feeBreakdown).newOrders,
            rfl, rfl, rfl, rfl⟩
    · have h1 : handleOrder env st ev = ⟨[], [], st⟩ :=
        handleOrder_not_allowed hal
      have h2 : handleOrder { env with contractWideTokenSet := A } st ev =
          ⟨[], [], st⟩ := handleOrder_not_allowed hal
      rw [h1, h2]
      exact ⟨rfl, [], [], [], [], [], [], rfl, rfl, rfl, rfl⟩

/-- An event whose pool-detail lookup fails is observationally absent from the
batch: every other event's outcome and the final results are unchanged. -/
theorem runEvents_drop_failed_event {env : Env Id} {bad : OrderParams}
    (hbad : env.poolDetails bad.pool = none) :
    ∀ (evs1 evs2 : List OrderParams) (st : Store Id),
      runEvents env (evs1 ++ bad :: evs2) st =
        runEvents env (evs1 ++ evs2) st := by
  intro evs1
  induction evs1 with
  | nil =>
      intro evs2 st
      rw [List.nil_append, List.nil_append, runEvents_cons,
        handleOrder_details_missing hbad]
      simp
  | cons ev evs1 ih =>
      intro evs2 st
      rw [List.cons_append, List.cons_append, runEvents_cons, runEvents_cons,
        ih]

theorem save_drop_failed_event {env : Env Id} {bad : OrderParams}
    (hbad : env.poolDetails bad.pool = none) (evs1 evs2 : List OrderParams)
    (st : Store Id) :
    save env (evs1 ++ bad :: evs2) st = save env (evs1 ++ evs2) st := by
  unfold save
  rw [runEvents_drop_failed_event hbad]

/-- **C8.** Failures are contained at the smallest enclosing unit and never
abort siblings or the batch: (i) a sell-leg item whose token-set registration
fails (and which had no row to reprice) is observationally absent — every
other item's and the buy leg's outcomes are unchanged; (ii) changing the
contract-wide token-set collaborator — the buy leg's only exclusive failure
knob — never changes the event's store effect; (iii) under the event's
success discriminants, both runs decompose as their own buy-leg prefix
followed by one and the same sell-leg outcome `sellLegOutcome env …`,
computed from the unmodified environment: a buy-leg token-set failure leaves
the sibling sell leg's results and buffered orders literally unchanged;
(iv) an event whose pool-detail lookup fails contributes nothing and leaves
every other event's outcome unchanged; (v) every returned result describes a
success. -/
theorem failure_containment {Id : Type} [DecidableEq Id] (env : Env Id) :
    (∀ (pool : Pool) (ev : OrderParams) (price value : Nat)
      (prices : List Nat) (currency : String) (mrs : List MissingRoyalty)
      (nv : Int) (fb : Nat) (fbd : List FeeEntry) (t : String)
      (ts1 ts2 : List String) (st : Store Id),
      env.singleTokenTokenSet pool.nft t = none →
      storeHas st (getOrderId env.keccak ev.pool Side.sell (some t)) = false →
      sellItems env pool ev price value prices currency mrs nv fb fbd
        (ts1 ++ t :: ts2) st =
        sellItems env pool ev price value prices currency mrs nv fb fbd
          (ts1 ++ ts2) st) ∧
    (∀ (A : String → Option String) (st : Store Id) (ev : OrderParams),
      (handleOrder { env with contractWideTokenSet := A } st ev).store =
        (handleOrder env st ev).store) ∧
    (∀ (A : String → Option String) (pool : Pool) (ev : OrderParams)
      (pl : List PoolPrice) (st : Store Id),
      env.poolDetails ev.pool = some pool →
      ev.pool = allowedPool →
      (List.range 10).mapM (fun i => env.poolPrice ev.pool (i + 1)) = some pl →
      (handleOrder { env with contractWideTokenSet := A } st ev).results =
        (buyLeg { env with contractWideTokenSet := A } pool ev pl st 0 []).results ++
          (sellLegOutcome env pool ev pl st).results ∧
      (handleOrder env st ev).results =
        (buyLeg env pool ev pl st 0 []).results ++
          (sellLegOutcome env pool ev pl st).results ∧
      (handleOrder { env with contractWideTokenSet := A } st ev).newOrders =
        (buyLeg { env with contractWideTokenSet := A } pool ev pl st 0 []).newOrders ++
          (sellLegOutcome env pool ev pl st).newOrders ∧
      (handleOrder env st ev).newOrders =
        (buyLeg env pool ev pl st 0 []).newOrders ++
          (sellLegOutcome env pool ev pl st).newOrders) ∧
    (∀ (evs1 evs2 : List OrderParams) (bad : OrderParams) (st : Store Id),
      env.poolDetails bad.pool = none →
      save env (evs1 ++ bad :: evs2) st = save env (evs1 ++ evs2) st) ∧
    (∀ (evs : List OrderParams) (st : Store Id),
      ∀ res ∈ (save env evs st).1, res.status = "success") := by
  refine ⟨?_, ?_, ?_, ?_, ?_⟩
  · intro pool ev price value prices currency mrs nv fb fbd t ts1 ts2 st
      hfail hmiss
    exact sellItems_drop_failed_item hfail ts1 st hmiss
  · intro A st ev
    exact (handleOrder_tokenSet_indep A env st ev).1
  · intro A pool ev pl st hpd hal hpl
    have hpd' : Env.poolDetails { env with contractWideTokenSet := A }
        ev.pool = some pool := hpd
    have hpl' : (List.range 10).mapM (fun i =>
        Env.poolPrice { env with contractWideTokenSet := A } ev.pool (i + 1)) =
        some pl := hpl
    rw [handleOrder_eq_legs hpd hal hpl, handleOrder_eq_legs hpd' hal hpl',
      handleLegs_decomp, handleLegs_decomp, sellLegOutcome_tokenSet_indep]
    exact ⟨rfl, rfl, rfl, rfl⟩
  · intro evs1 evs2 bad st hbad
    exact save_drop_failed_event hbad evs1 evs2 st
  · intro evs st
    exact save_results_success env evs st

/-- Demo environment whose single-token token-set registration fails for
item `"9"`. -/
def failEnv : Env TupleId :=
  { feeEnv with
    singleTokenTokenSet := fun c t =>
      if t = "9" then none else some ("ts:" ++ c ++ ":" ++ t) }

/-- Witness for C8: the failing item `"9"` is dropped without affecting its
siblings; a buy-leg token-set failure leaves the store effect unchanged and
the failing run's results are its own (empty-contributing) buy prefix
followed by exactly the unmodified environment's sell-leg outcome; a batch
containing an event for an unknown pool equals the batch without it. -/
theorem failure_containment_witness :
    (sellItems failEnv demoPool evA 80 80 [80] "0xweth" [] 80 70 []
        (["7"] ++ "9" :: ["8"]) ([] : Store TupleId) =
      sellItems failEnv demoPool evA 80 80 [80] "0xweth" [] 80 70 []
        (["7"] ++ ["8"]) ([] : Store TupleId)) ∧
    ((handleOrder { demoEnv with contractWideTokenSet := fun _ => none }
        ([] : Store TupleId) evA).store =
      (handleOrder demoEnv ([] : Store TupleId) evA).store) ∧
    ((handleOrder { demoEnv with contractWideTokenSet := fun _ => none }
        ([] : Store TupleId) evA).results =
      (buyLeg { demoEnv with contractWideTokenSet := fun _ => none } demoPool
          evA (List.replicate 10 demoQuote) ([] : Store TupleId) 0 []).results ++
        (sellLegOutcome demoEnv demoPool evA (List.replicate 10 demoQuote)
          ([] : Store TupleId)).results) ∧
    (save demoEnv ([] ++ ⟨"0xdead", 1, "0xtxD"⟩ :: [evA]) ([] : Store TupleId) =
      save demoEnv ([] ++ [evA]) ([] : Store TupleId)) := by
  refine ⟨?_, ?_, ?_, ?_⟩
  · exact (failure_containment failEnv).1 demoPool evA 80 80 [80] "0xweth" []
      80 70 [] "9" ["7"] ["8"] [] (by decide) (by decide)
  · exact (failure_containment demoEnv).2.1 (fun _ => none) [] evA
  · exact ((failure_containment demoEnv).2.2.1 (fun _ => none) demoPool evA
      (List.replicate 10 demoQuote) [] (by decide) rfl (by decide)).1
  · exact (failure_containment demoEnv).2.2.2.1 [] [evA]
      ⟨"0xdead", 1, "0xtxD"⟩ [] (by decide)

/-- **C9.** All newly derived orders of a batch are persisted by exactly one
conflict-ignoring bulk insert keyed on order identity, while updates are
applied to the store immediately by the legs and bypass the buffer: the final
store is `insertIgnore` of the post-event store (which already carries all
updates) with the buffered rows, and a lookup in the final store returns the
pre-existing row if any, else the first buffered row with that identity (the
earlier row wins).  Concretely: two events deriving the same identity in one
batch both record `new-order` (the buffered insert is invisible mid-batch)
yet the flushed store holds one row, the first event's; whereas with a
pre-existing row the events reprice it in place, immediately, with no insert
involved. -/
theorem bulk_insert_conflict_ignore :
    (∀ (J : Type) [DecidableEq J] (env : Env J) (evs : List OrderParams)
      (st : Store J) (i : J),
      (save env evs st).2 =
        insertIgnore (runEvents env evs st).store
          (runEvents env evs st).newOrders ∧
      rowFind (save env evs st).2 i =
        (match rowFind (runEvents env evs st).store i with
         | some r => some r
         | none => rowFind (runEvents env evs st).newOrders i)) ∧
    ((save demoEnv [evA, evB] ([] : Store TupleId)).1.map
        (fun r => r.triggerKind) =
      [some TriggerKind.newOrder, some TriggerKind.newOrder]) ∧
    ((save demoEnv [evA, evB] ([] : Store TupleId)).2.map
        (fun r => r.valid_from) = [100]) ∧
    ((save demoEnv [evA, evB] [demoBuyOrder]).1.map (fun r => r.triggerKind) =
      [some TriggerKind.reprice, some TriggerKind.reprice]) ∧
    ((save demoEnv [evA, evB] [demoBuyOrder]).2.map (fun r => r.valid_from) =
      [200]) := by
  refine ⟨?_, by decide, by decide, by decide, by decide⟩
  intro J instJ env evs st i
  exact ⟨rfl, insertIgnore_rowFind _ _ _⟩

end Nftx
